import Mathlib

/-!
# Verification of the setlist-maker reconciliation core

A shallow embedding, in Lean 4, of the track-identification pipeline of the
`setlist-maker` repository (`setlist_maker/cli.py`, `setlist_maker/editor.py`):
the reconciliation algorithm (`deduplicate_tracklist`, `results_to_tracklist`),
the human-readable markdown serialization and its parser
(`Tracklist.to_markdown`, `parse_markdown_tracklist`), the JSON sidecar
(`Tracklist.to_json`, `_load_tracklist_with_artwork_urls`), the retry loop
(`identify_sample_with_retry`), the progress/resume logic
(`process_single_file`, `load_progress`), and the corrections store
(`CorrectionsDB`).

Python strings are modelled as `List Char`, dictionaries as association lists,
raised exceptions as `Except`/`Option` results.  Every definition mirrors the
corresponding Python function; theorems at the end settle the specification
claims.
-/

/-- Python `str` values are modelled as lists of characters. -/
abbrev Str := List Char

/-- Coerce a Lean string literal to the character-list model. -/
def str (s : String) : Str := s.data

/-- The characters Python's `str.strip()` removes (the ASCII whitespace set). -/
def isPyWs (c : Char) : Bool :=
  c = ' ' || c = '\t' || c = '\n' || c = '\r' || c = '\x0b' || c = '\x0c'

/-- `str.lstrip()`: drop leading whitespace. -/
def pyLstrip (l : Str) : Str := l.dropWhile isPyWs

/-- `str.rstrip()`: drop trailing whitespace (structural recursion). -/
def pyRstrip : Str → Str
  | [] => []
  | c :: t =>
    match pyRstrip t with
    | [] => if isPyWs c then [] else [c]
    | r => c :: r

/-- `str.strip()`: drop leading and trailing whitespace. -/
def pyStrip (l : Str) : Str := pyRstrip (pyLstrip l)

/-- `str.lower()` (ASCII case folding, as used by the repository's keys). -/
def pyLower (l : Str) : Str := l.map Char.toLower

/-- `f"{n}"` for a digit value: the decimal digit character. -/
def digitChar (d : Nat) : Char :=
  match d with
  | 0 => '0' | 1 => '1' | 2 => '2' | 3 => '3' | 4 => '4'
  | 5 => '5' | 6 => '6' | 7 => '7' | 8 => '8' | _ => '9'

/-- Decimal digits of `n`, most significant first (fuel-based so it reduces). -/
def natDigitsAux : Nat → Nat → Str
  | 0, _ => []
  | fuel + 1, n =>
    if n < 10 then [digitChar n]
    else natDigitsAux fuel (n / 10) ++ [digitChar (n % 10)]

/-- `f"{n}"`: decimal representation of a natural number. -/
def natDigits (n : Nat) : Str := natDigitsAux (n + 1) n

/-- `f"{n:02d}"`: decimal representation padded to two digits. -/
def pad2 (n : Nat) : Str := if n < 10 then '0' :: natDigits n else natDigits n

/-- `int(s)` on a string of decimal digits. -/
def digitsToNat (l : Str) : Nat :=
  l.foldl (fun acc c => acc * 10 + (c.toNat - '0'.toNat)) 0

/-- `format_timestamp` (cli.py) / `Track.time_str` (editor.py):
seconds to `H:MM:SS` or `M:SS`. -/
def format_timestamp (seconds : Nat) : Str :=
  let hours := seconds / 3600
  let minutes := (seconds % 3600) / 60
  let secs := seconds % 60
  if hours > 0 then
    natDigits hours ++ ':' :: pad2 minutes ++ ':' :: pad2 secs
  else
    natDigits minutes ++ ':' :: pad2 secs

/-! ## Data model

`TrackInfo` is the raw per-sample match dictionary built by
`identify_sample_with_retry` (cli.py lines 169-177), possibly extended by the
correction overlay of `results_to_tracklist` with `original_artist` /
`original_title`.  `Track` mirrors the `Track` dataclass of editor.py exactly:
note that the dataclass declares no `coverart_url` field. -/

structure TrackInfo where
  title : Str
  artist : Str
  shazam_url : Option Str := none
  album : Option Str := none
  coverart_url : Option Str := none
  original_artist : Option Str := none
  original_title : Option Str := none
  deriving Repr, DecidableEq

/-- The `Track` dataclass (editor.py lines 43-55).  Its declared fields are
`timestamp, artist, title, rejected, shazam_url, album, original_artist,
original_title` — and nothing else. -/
structure Track where
  timestamp : Nat
  artist : Str
  title : Str
  rejected : Bool := false
  shazam_url : Option Str := none
  album : Option Str := none
  original_artist : Option Str := none
  original_title : Option Str := none
  deriving Repr, DecidableEq

/-- `Track.is_unidentified`: `not self.artist and not self.title`. -/
def Track.is_unidentified (t : Track) : Bool :=
  t.artist.isEmpty && t.title.isEmpty

/-- The `Tracklist` dataclass (editor.py lines 79-84). -/
structure Tracklist where
  source_file : Str
  tracks : List Track := []
  generated_on : Option Str := none
  deriving Repr, DecidableEq

/-- The normalized key `(title.lower(), artist.lower())` used by
`deduplicate_tracklist` for counting and run collapsing. -/
def keyOf (i : TrackInfo) : Str × Str := (pyLower i.title, pyLower i.artist)

/-! ## `deduplicate_tracklist` (cli.py lines 205-260) -/

/-- Pass 1 support: `track_counts[key]` — how many entries of `raw_results`
are matched with normalized key `k`. -/
def countKey (rr : List (Nat × Option TrackInfo)) (k : Str × Str) : Nat :=
  (rr.filter fun e =>
    match e.2 with
    | some i => decide (keyOf i = k)
    | none => false).length

/-- Pass 1: replace singleton matches by `None` (lines 220-230). -/
def filterSingles (rr : List (Nat × Option TrackInfo)) :
    List (Nat × Option TrackInfo) :=
  rr.map fun e =>
    match e.2 with
    | some i => (e.1, if countKey rr (keyOf i) = 1 then none else some i)
    | none => (e.1, none)

/-- Pass 2 (lines 232-258): walk the filtered sequence with `last_track_key`
and `pending_unidentified`, emitting one entry per change of key and pending
unidentified gaps; a still-pending gap is emitted at the end. -/
def dedupLoop : List (Nat × Option TrackInfo) → Option (Str × Str) →
    Option Nat → List (Nat × Option TrackInfo)
  | [], _, pending =>
    match pending with
    | some t => [(t, none)]
    | none => []
  | (ts, none) :: rest, lastKey, pending =>
    match lastKey, pending with
    | some k, none => dedupLoop rest (some k) (some ts)
    | _, _ => dedupLoop rest lastKey pending
  | (ts, some info) :: rest, lastKey, pending =>
    if some (keyOf info) = lastKey then
      dedupLoop rest lastKey pending
    else
      (match pending with
       | some t => [(t, none)]
       | none => []) ++ (ts, some info) :: dedupLoop rest (some (keyOf info)) none

/-- `deduplicate_tracklist`: singleton suppression then run collapsing. -/
def deduplicate_tracklist (raw_results : List (Nat × Option TrackInfo)) :
    List (Nat × Option TrackInfo) :=
  dedupLoop (filterSingles raw_results) none none

/-! ## `CorrectionsDB` (editor.py lines 917-994)

The on-disk JSON file is modelled by an explicit disk state: the file can be
absent, unreadable (`IOError` while opening or reading), undecodable
(`json.JSONDecodeError`), or decodable to a Python value.  `json.load` can
return *any* JSON value — `_load` performs no validation — so the decoded
value is an untyped `PyVal`; `data.get` and the item assignment in
`add_correction` raise on values of the wrong type, exactly as in Python. -/

/-- One value of the `corrections` dictionary (editor.py lines 965-971). -/
structure CorrEntry where
  artist : Str
  title : Str
  original_artist : Str
  original_title : Str
  corrected_at : Str
  deriving Repr, DecidableEq

/-- A Python value as returned by `json.load`: `None`, `bool`, number, `str`,
`list` or `dict` (JSON object keys are always strings). -/
inductive PyVal where
  | pnull
  | pbool (b : Bool)
  | pnum (n : Nat)
  | pstr (s : Str)
  | plist (items : List PyVal)
  | pdict (entries : List (Str × PyVal))
  deriving Repr

/-- What the constructor can find on disk at `db_path`. -/
inductive DiskState where
  | absent
  | ioerror
  | undecodable
  | decoded (data : PyVal)
  deriving Repr

/-- The in-memory store. -/
structure CorrectionsDB where
  corrections : List (Str × CorrEntry) := []
  deriving Repr, DecidableEq

/-- Dictionary lookup on the association-list model of a Python dict. -/
def dictFind (k : Str) : List (Str × CorrEntry) → Option CorrEntry
  | [] => none
  | (k', v) :: rest => if k' = k then some v else dictFind k rest

/-- Dictionary upsert: replace the value at an existing key, else append. -/
def dictSet (m : List (Str × CorrEntry)) (k : Str) (v : CorrEntry) :
    List (Str × CorrEntry) :=
  if (dictFind k m).isSome then
    m.map fun p => if p.1 = k then (k, v) else p
  else
    m ++ [(k, v)]

/-- `CorrectionsDB._make_key`: `f"{artist.lower().strip()}|||{title.lower().strip()}"`. -/
def make_key (artist title : Str) : Str :=
  pyStrip (pyLower artist) ++ str "|||" ++ pyStrip (pyLower title)

/-- Lookup in the untyped dictionary model of a decoded JSON object. -/
def dictFindP (k : Str) : List (Str × PyVal) → Option PyVal
  | [] => none
  | (k', v) :: rest => if k' = k then some v else dictFindP k rest

/-- `CorrectionsDB.__init__` through `_load` (editor.py lines 926-949),
returning the final Python value of `self.corrections` or the uncaught
exception.  `self.corrections` starts `{}`; an absent file is never opened;
`json.JSONDecodeError` and `IOError` are caught and leave the store empty; but
`data.get("corrections", {})` sits inside the `try` and raises
`AttributeError` — which the `except` clause does not catch — whenever the
decoded value is not a dict, and on a dict it returns the `"corrections"`
value (of whatever type) or `{}`. -/
def load_corrections : DiskState → Except Str PyVal
  | .absent => .ok (.pdict [])
  | .ioerror => .ok (.pdict [])
  | .undecodable => .ok (.pdict [])
  | .decoded data =>
    match data with
    | .pdict kvs => .ok ((dictFindP (str "corrections") kvs).getD (.pdict []))
    | _ => .error (str "AttributeError")

/-- Python item assignment `obj[key] = value` with a string key: succeeds on a
dict, raises `TypeError` on every other value. -/
def pySetItem (v : PyVal) (k : Str) (x : PyVal) : Except Str PyVal :=
  match v with
  | .pdict kvs =>
    .ok (.pdict (if (dictFindP k kvs).isSome then
      kvs.map fun p => if p.1 = k then (k, x) else p
    else kvs ++ [(k, x)]))
  | _ => .error (str "TypeError")

/-- The Python value of one correction entry (the dict literal at editor.py
lines 965-971). -/
def encodeEntry (e : CorrEntry) : PyVal :=
  .pdict [(str "artist", .pstr e.artist), (str "title", .pstr e.title),
          (str "original_artist", .pstr e.original_artist),
          (str "original_title", .pstr e.original_title),
          (str "corrected_at", .pstr e.corrected_at)]

/-- The Python value of a well-typed corrections dictionary. -/
def encodeCorrections (m : List (Str × CorrEntry)) : PyVal :=
  .pdict (m.map fun p => (p.1, encodeEntry p.2))

/-- `CorrectionsDB.add_correction` (lines 956-971) on the raw Python value
that `_load` left in `self.corrections` (unvalidated): the item assignment at
line 965 raises `TypeError` when that value is not a dict; `now` stands for
`datetime.now().isoformat()`. -/
def add_correction_raw (corrections : PyVal) (original_artist original_title
    corrected_artist corrected_title now : Str) : Except Str PyVal :=
  pySetItem corrections (make_key original_artist original_title)
    (encodeEntry
      { artist := corrected_artist, title := corrected_title,
        original_artist := original_artist, original_title := original_title,
        corrected_at := now })

/-- `CorrectionsDB.add_correction` (lines 956-971) on a well-typed store;
`now` stands for `datetime.now().isoformat()`. -/
def add_correction (db : CorrectionsDB) (original_artist original_title
    corrected_artist corrected_title now : Str) : CorrectionsDB :=
  { db with
    corrections := dictSet db.corrections (make_key original_artist original_title)
      { artist := corrected_artist, title := corrected_title,
        original_artist := original_artist, original_title := original_title,
        corrected_at := now } }

/-- `CorrectionsDB.get_correction` (lines 973-979). -/
def get_correction (db : CorrectionsDB) (artist title : Str) :
    Option (Str × Str) :=
  (dictFind (make_key artist title) db.corrections).map fun c => (c.artist, c.title)

/-- The loop body of `CorrectionsDB.apply_corrections` (lines 981-994) over the
track list, returning the mutated tracks and the `applied` counter. -/
def apply_corrections_go (db : CorrectionsDB) : List Track → List Track × Nat
  | [] => ([], 0)
  | tr :: rest =>
    let (rs, n) := apply_corrections_go db rest
    if tr.is_unidentified then (tr :: rs, n)
    else
      match get_correction db tr.artist tr.title with
      | some (a, t) =>
        ({ tr with original_artist := some tr.artist,
                   original_title := some tr.title,
                   artist := a, title := t } :: rs, n + 1)
      | none => (tr :: rs, n)

/-- `CorrectionsDB.apply_corrections`: returns the updated tracklist and the
count of corrections applied. -/
def apply_corrections (db : CorrectionsDB) (tl : Tracklist) : Tracklist × Nat :=
  let (ts, n) := apply_corrections_go db tl.tracks
  ({ tl with tracks := ts }, n)

/-! ## `results_to_tracklist` (cli.py lines 263-313)

The conversion first overlays stored corrections on the raw results, then
deduplicates, then builds `Track` objects.  The `Track(...)` call at lines
295-304 passes the keyword argument `coverart_url`, which is **not** a declared
field of the `Track` dataclass, so Python raises `TypeError` for every matched
entry; the embedding reports this with `Except`. -/

/-- The keyword arguments passed to `Track(...)` at cli.py lines 295-304. -/
def trackCtorKwargs : List String :=
  ["timestamp", "artist", "title", "shazam_url", "album", "coverart_url",
   "original_artist", "original_title"]

/-- The declared fields of the `Track` dataclass (editor.py lines 43-55). -/
def trackFieldNames : List String :=
  ["timestamp", "artist", "title", "rejected", "shazam_url", "album",
   "original_artist", "original_title"]

/-- The correction overlay applied before deduplication (lines 272-286). -/
def overlayCorrections (db : Option CorrectionsDB)
    (rr : List (Nat × Option TrackInfo)) : List (Nat × Option TrackInfo) :=
  match db with
  | none => rr
  | some db =>
    rr.map fun e =>
      match e.2 with
      | some i =>
        match get_correction db i.artist i.title with
        | some (a, t) =>
          (e.1, some { i with original_artist := some i.artist,
                              original_title := some i.title,
                              artist := a, title := t })
        | none => (e.1, some i)
      | none => (e.1, none)

/-- Build one `Track` from a deduplicated entry (lines 293-307).  For a matched
entry the Python constructor call is a `TypeError` because `coverart_url` is
not a field of `Track`; the well-formedness guard reproduces that check. -/
def track_from_entry (e : Nat × Option TrackInfo) : Except String Track :=
  match e.2 with
  | some info =>
    if trackCtorKwargs.all (fun k => trackFieldNames.contains k) then
      .ok { timestamp := e.1, artist := info.artist, title := info.title,
            shazam_url := info.shazam_url, album := info.album,
            original_artist := info.original_artist,
            original_title := info.original_title }
    else
      .error "TypeError: Track.__init__() got an unexpected keyword argument"
  | none => .ok { timestamp := e.1, artist := [], title := [] }

/-- `results_to_tracklist`; `gen` stands for `datetime.now().strftime(...)`. -/
def results_to_tracklist (raw_results : List (Nat × Option TrackInfo))
    (source_filename : Str) (corrections_db : Option CorrectionsDB)
    (gen : Str) : Except String Tracklist := do
  let deduped := deduplicate_tracklist (overlayCorrections corrections_db raw_results)
  let tracks ← deduped.mapM track_from_entry
  return { source_file := source_filename, tracks := tracks,
           generated_on := some gen }

/-! ## Progress and resume (cli.py lines 316-399)

`save_progress`/`load_progress` persist the raw-result list as JSON;
`process_single_file` reloads it, fast-forwards `start_index` to its length,
and recognizes only the remaining slices.  Recognition of one slice is
modelled by a deterministic oracle `identify` from the slice to its result,
which captures one uninterrupted pass of
`identify_sample_with_retry` over that sample. -/

/-- `load_progress`: the saved snapshot, or `[]` when the file is absent. -/
def load_progress (snapshot : Option (List (Nat × Option TrackInfo))) :
    List (Nat × Option TrackInfo) :=
  snapshot.getD []

/-- The per-sample loop of `process_single_file` (lines 366-399): starting
from the resumed results, append the recognition result of every slice from
`start_index = len(raw_results)` on. -/
def process_file_raw {α : Type} (slices : List (Nat × α))
    (identify : α → Option TrackInfo)
    (resumed : List (Nat × Option TrackInfo)) : List (Nat × Option TrackInfo) :=
  (slices.drop resumed.length).foldl
    (fun acc e => acc ++ [(e.1, identify e.2)]) resumed

/-- The slices actually submitted to recognition during the loop. -/
def queried_slices {α : Type} (slices : List (Nat × α))
    (resumed : List (Nat × Option TrackInfo)) : List (Nat × α) :=
  slices.drop resumed.length

/-- The tail of `process_single_file`: reconcile the final raw results into a
tracklist (line 403). -/
def process_file_tracklist {α : Type} (slices : List (Nat × α))
    (identify : α → Option TrackInfo)
    (resumed : List (Nat × Option TrackInfo)) (source_filename : Str)
    (corrections_db : Option CorrectionsDB) (gen : Str) :
    Except String Tracklist :=
  results_to_tracklist (process_file_raw slices identify resumed)
    source_filename corrections_db gen

/-! ## `identify_sample_with_retry` (cli.py lines 152-202)

One call to `await shazam.recognize(...)` either returns a value (possibly
without a `"track"` key, modelled by `Option ShazamTrack`) or raises; the
whole attempt body, including the field extraction of lines 169-177, sits in
the `try` block.  The per-attempt outcome is given by an oracle indexed by
the attempt number, and `random.uniform(0, backoff * 0.1)` by a jitter
oracle.  Floats are modelled as rationals. -/

/-- An entry of the track's `sections[..].metadata` list. -/
structure MetaD where
  text : Option Str := none
  deriving Repr, DecidableEq

/-- An entry of the track's `sections` list; `metadata` is `none` when the
key is absent (so `get` falls back to `[{}]`). -/
structure SectionD where
  metadata : Option (List MetaD) := none
  deriving Repr, DecidableEq

/-- The `images` sub-dictionary of a Shazam track. -/
structure ShazamImages where
  coverarthq : Option Str := none
  coverart : Option Str := none
  deriving Repr, DecidableEq

/-- The `result["track"]` dictionary returned by the recognition service. -/
structure ShazamTrack where
  title : Option Str := none
  subtitle : Option Str := none
  url : Option Str := none
  images : Option ShazamImages := none
  sections : Option (List SectionD) := none
  deriving Repr, DecidableEq

/-- Python `a or b` for optional strings: the empty string is falsy. -/
def pyOrStr (a b : Option Str) : Option Str :=
  match a with
  | some s => if s = [] then b else some s
  | none => b

/-- The album expression
`track.get("sections", [{}])[0].get("metadata", [{}])[0].get("text") if
track.get("sections") else None` (lines 173-175); indexing `[0]` into a
present-but-empty `metadata` list raises `IndexError`. -/
def albumOf (t : ShazamTrack) : Except Str (Option Str) :=
  match t.sections with
  | none => .ok none
  | some [] => .ok none
  | some (s0 :: _) =>
    match s0.metadata with
    | none => .ok none
    | some [] => .error (str "list index out of range")
    | some (m0 :: _) => .ok m0.text

/-- The dictionary built from a recognized track (lines 168-177). -/
def extract_track_info (t : ShazamTrack) : Except Str TrackInfo := do
  let album ← albumOf t
  return { title := (t.title).getD (str "Unknown Title"),
           artist := (t.subtitle).getD (str "Unknown Artist"),
           shazam_url := t.url,
           album := album,
           coverart_url := pyOrStr (t.images.bind (·.coverarthq))
                                   (t.images.bind (·.coverart)) }

/-- Contiguous-substring test, `needle in hay`. -/
def strHas (hay needle : Str) : Bool :=
  hay.tails.any fun tl => needle.isPrefixOf tl

/-- The rate-limit detection of lines 180-183. -/
def isRateLimited (msg : Str) : Bool :=
  let e := pyLower msg
  strHas e (str "429") || strHas e (str "too many") || strHas e (str "rate")

/-- `MAX_RETRIES` (cli.py line 84). -/
def MAX_RETRIES : Nat := 5

/-- `INITIAL_BACKOFF` (cli.py line 85). -/
def INITIAL_BACKOFF : ℚ := 30

/-- Result of the retry loop: the returned value, the backoff sleeps
performed (in seconds, jitter included), and the number of `recognize`
calls made. -/
structure RetryTrace where
  result : Option TrackInfo
  waits : List ℚ
  calls : Nat
  deriving Repr, DecidableEq

/-- The `for attempt in range(max_retries)` loop of lines 163-202.
`remaining = max_retries - attempt`, so `attempt < max_retries - 1` is
`1 ≤ remaining - 1`. -/
def retryGo (orc : Nat → Except Str (Option ShazamTrack)) (jit : Nat → ℚ) :
    Nat → Nat → ℚ → RetryTrace
  | _, 0, _ => { result := none, waits := [], calls := 0 }
  | attempt, remaining + 1, backoff =>
    let handle : Str → RetryTrace := fun msg =>
      if isRateLimited msg then
        if 0 < remaining then
          let w := backoff + jit attempt
          let rec' := retryGo orc jit (attempt + 1) remaining (backoff * 2)
          { rec' with waits := w :: rec'.waits, calls := rec'.calls + 1 }
        else { result := none, waits := [], calls := 1 }
      else { result := none, waits := [], calls := 1 }
    match orc attempt with
    | .ok (some track) =>
      match extract_track_info track with
      | .ok info => { result := some info, waits := [], calls := 1 }
      | .error msg => handle msg
    | .ok none => { result := none, waits := [], calls := 1 }
    | .error msg => handle msg

/-- `identify_sample_with_retry` with the default `max_retries=MAX_RETRIES`. -/
def identify_sample_with_retry (orc : Nat → Except Str (Option ShazamTrack))
    (jit : Nat → ℚ) : RetryTrace :=
  retryGo orc jit 0 MAX_RETRIES INITIAL_BACKOFF

/-! ## `Tracklist.to_markdown` (editor.py lines 87-108) -/

/-- One numbered line of the markdown body (lines 100-104).
`Track.time_str` is the same computation as `format_timestamp`. -/
def renderTrackLine (n : Nat) (t : Track) : Str :=
  if t.is_unidentified then
    natDigits n ++ str ". *Unidentified* (" ++ format_timestamp t.timestamp ++ str ")"
  else
    natDigits n ++ str ". **" ++ t.artist ++ str "** - " ++ t.title ++
      str " (" ++ format_timestamp t.timestamp ++ str ")"

/-- The numbered lines for the non-rejected tracks, `track_num` threaded. -/
def trackLines : List Track → Nat → List Str
  | [], _ => []
  | t :: ts, n =>
    if t.rejected then trackLines ts n
    else renderTrackLine n t :: trackLines ts (n + 1)

/-- The `lines` list of `to_markdown`; `now` stands for
`datetime.now().strftime('%Y-%m-%d %H:%M')`. -/
def mdLines (tl : Tracklist) (now : Str) : List Str :=
  [str "# Tracklist: " ++ tl.source_file, [],
   str "*Generated on " ++ tl.generated_on.getD now ++ str "*", []]
  ++ trackLines tl.tracks 1 ++ [[]]

/-- `"\n".join(lines)`. -/
def joinNl : List Str → Str
  | [] => []
  | [l] => l
  | l :: ls => l ++ '\n' :: joinNl ls

/-- `Tracklist.to_markdown`. -/
def Tracklist.to_markdown (tl : Tracklist) (now : Str) : Str :=
  joinNl (mdLines tl now)

/-! ## `parse_markdown_tracklist` (editor.py lines 127-180)

The fixed regular expression
`^\d+\.\s+(?:\*\*(.+?)\*\*\s*-\s*(.+?)|\*Unidentified\*)\s*\((\d+:\d+(?::\d+)?)\)`
is embedded as a specialized matcher: greedy pieces (`\d+`, `\s+`, `\s*`)
are deterministic take/drop-while, the two lazy groups `(.+?)` try the
shortest nonempty prefix first and extend on failure of the continuation
(`.` never crosses a newline), the alternation tries its left branch first,
and, as with `re.match`, anything after the timestamp's closing parenthesis
is ignored. -/

/-- `content.split("\n")`. -/
def splitNl : Str → List Str
  | [] => [[]]
  | c :: rest =>
    if c = '\n' then [] :: splitNl rest
    else
      match splitNl rest with
      | [] => [[c]]
      | l :: ls => (c :: l) :: ls

/-- Lazy `(.+?)` followed by a continuation: the shortest nonempty prefix
whose remainder satisfies `check`; `.` does not match a newline. -/
def lazySplit {α : Type} (check : Str → Option α) : Str → Option (Str × α)
  | [] => none
  | c :: rest =>
    if c = '\n' then none
    else
      match check rest with
      | some a => some ([c], a)
      | none =>
        match lazySplit check rest with
        | some (p, a) => some (c :: p, a)
        | none => none

/-- `(\d+:\d+(?::\d+)?)\)` plus the conversion of lines 164-169: split the
captured group on `:` and combine with 60/3600. -/
def parseTsParen (s : Str) : Option Nat :=
  let d1 := s.takeWhile Char.isDigit
  let r1 := s.dropWhile Char.isDigit
  if d1 = [] then none
  else
    match r1 with
    | ':' :: r2 =>
      let d2 := r2.takeWhile Char.isDigit
      let r3 := r2.dropWhile Char.isDigit
      if d2 = [] then none
      else
        match r3 with
        | ':' :: r4 =>
          let d3 := r4.takeWhile Char.isDigit
          let r5 := r4.dropWhile Char.isDigit
          if d3 = [] then none
          else
            match r5 with
            | ')' :: _ =>
              some (digitsToNat d1 * 3600 + digitsToNat d2 * 60 + digitsToNat d3)
            | _ => none
        | ')' :: _ => some (digitsToNat d1 * 60 + digitsToNat d2)
        | _ => none
    | _ => none

/-- `\s*\((\d+:\d+(?::\d+)?)\)`, the tail shared by both branches. -/
def contTs (s : Str) : Option Nat :=
  match s.dropWhile isPyWs with
  | '(' :: s2 => parseTsParen s2
  | _ => none

/-- `\s*-\s*(.+?)` followed by the timestamp tail. -/
def contDash (s : Str) : Option (Str × Nat) :=
  match s.dropWhile isPyWs with
  | '-' :: s2 => lazySplit contTs (s2.dropWhile isPyWs)
  | _ => none

/-- The continuation after the lazy artist group: `\*\*` then dash, title
and timestamp. -/
def contStar (s : Str) : Option (Str × Nat) :=
  match s with
  | '*' :: '*' :: s2 => contDash s2
  | _ => none

/-- Branch `\*Unidentified\*` followed by the timestamp tail. -/
def matchIdent (s : Str) : Option Nat :=
  if (str "*Unidentified*").isPrefixOf s then contTs (s.drop 14) else none

/-- The whole track pattern on an already-stripped line; returns the raw
captured groups `(artist, title, timestamp)`, with `("", "")` for the
`*Unidentified*` branch (`match.group(n) or ""`). -/
def parseTrackCore (l : Str) : Option (Str × Str × Nat) :=
  let ds := l.takeWhile Char.isDigit
  let r1 := l.dropWhile Char.isDigit
  if ds = [] then none
  else
    match r1 with
    | '.' :: r2 =>
      let ws := r2.takeWhile isPyWs
      let r3 := r2.dropWhile isPyWs
      if ws = [] then none
      else
        match
          (match r3 with
           | '*' :: '*' :: rest => lazySplit contStar rest
           | _ => none) with
        | some (a, t, ts) => some (a, t, ts)
        | none => (matchIdent r3).map fun ts => ([], [], ts)
    | _ => none

/-- Build the `Track` of lines 171-177 from the raw captured groups. -/
def track_of_groups (g : Str × Str × Nat) : Track :=
  { timestamp := g.2.2, artist := pyStrip g.1, title := pyStrip g.2.1,
    original_artist := if g.1 = [] then none else some (pyStrip g.1),
    original_title := if g.2.1 = [] then none else some (pyStrip g.2.1) }

/-- `line.replace(needle, "")`: remove every occurrence of `needle`. -/
def removeSub (needle : Str) : Str → Str
  | [] => []
  | c :: rest =>
    if h : needle ≠ [] ∧ needle.isPrefixOf (c :: rest) then
      removeSub needle ((c :: rest).drop needle.length)
    else
      c :: removeSub needle rest
  termination_by l => l.length
  decreasing_by
    · have hn : 0 < needle.length := List.length_pos.mpr h.1
      simp only [List.length_drop, List.length_cons]
      omega
    · simp

/-- Header extraction (lines 133-136). -/
def parse_header (lines : List Str) : Str :=
  match lines.find? (fun l => (str "# Tracklist:").isPrefixOf l) with
  | some l => pyStrip (removeSub (str "# Tracklist:") l)
  | none => []

/-- Greedy `(.+)\*` at the start of `body`: cut at the last `*` that leaves
a nonempty newline-free group before it. -/
def lastStarCut : Str → Option Str
  | [] => none
  | c :: rest =>
    match lastStarCut rest with
    | some g => some (c :: g)
    | none => match rest with | '*' :: _ => some [c] | _ => none

/-- `re.search(r"\*Generated on (.+)\*", line)` matching at this position. -/
def genAt (s : Str) : Option Str :=
  if (str "*Generated on ").isPrefixOf s then
    lastStarCut ((s.drop 14).takeWhile (· ≠ '\n'))
  else none

/-- `re.search` scans left to right for the first matching position. -/
def searchGen : Str → Option Str
  | [] => none
  | c :: rest =>
    match genAt (c :: rest) with
    | some g => some g
    | none => searchGen rest

/-- Generation-date extraction (lines 139-144). -/
def parse_generated (lines : List Str) : Option Str :=
  match lines.find? (fun l => (str "*Generated on").isPrefixOf l) with
  | some l => searchGen l
  | none => none

/-- `parse_markdown_tracklist`. -/
def parse_markdown_tracklist (content : Str) : Tracklist :=
  let lines := splitNl (pyStrip content)
  { source_file := parse_header lines,
    generated_on := parse_generated lines,
    tracks := lines.filterMap fun l =>
      (parseTrackCore (pyStrip l)).map track_of_groups }

/-- The ordered `(artist, title, timestamp)` triples of the non-rejected
tracks of a tracklist. -/
def triples (tl : Tracklist) : List (Str × Str × Nat) :=
  (tl.tracks.filter fun t => !t.rejected).map fun t => (t.artist, t.title, t.timestamp)

/-! ## JSON sidecar: `Tracklist.to_json` (editor.py lines 110-124) and the
sidecar half of `_load_tracklist_with_artwork_urls` (cli.py lines 654-697) -/

/-- A JSON value, as far as the sidecar needs one. -/
inductive JVal where
  | jnull
  | jnum (n : Nat)
  | jstr (s : Str)
  | jbool (b : Bool)
  deriving Repr, DecidableEq

/-- A JSON object is an association list of key/value pairs. -/
abbrev JObj := List (String × JVal)

/-- `obj.get(key)`: `None` when the key is absent. -/
def jget (obj : JObj) (k : String) : Option JVal :=
  match obj with
  | [] => none
  | (k', v) :: rest => if k' = k then some v else jget rest k

/-- Python truthiness of `obj.get(key)` (`if url and ...`). -/
def jTruthy : Option JVal → Bool
  | none => false
  | some .jnull => false
  | some (.jstr s) => !s.isEmpty
  | some (.jnum n) => n != 0
  | some (.jbool b) => b

/-- Serialize an optional string field. -/
def jOptStr : Option Str → JVal
  | some s => .jstr s
  | none => .jnull

/-- `Tracklist.to_json`: one record per non-rejected track, with exactly the
keys `timestamp, time, artist, title, rejected, shazam_url, album`. -/
def Tracklist.to_json (tl : Tracklist) : List JObj :=
  (tl.tracks.filter fun t => !t.rejected).map fun t =>
    [("timestamp", .jnum t.timestamp),
     ("time", .jstr (format_timestamp t.timestamp)),
     ("artist", .jstr t.artist),
     ("title", .jstr t.title),
     ("rejected", .jbool t.rejected),
     ("shazam_url", jOptStr t.shazam_url),
     ("album", jOptStr t.album)]

/-- The sidecar mapping loop of `_load_tracklist_with_artwork_urls`
(cli.py lines 682-687): `for i, jt in enumerate(json_tracks)` assigns
`jt.get("coverart_url")` to the markdown track **at the same index** `i`
(when the url is truthy and `i` is in range), building the
`coverart_urls` index-keyed dictionary. -/
def loadArtworkByIndex (json_tracks : List JObj) (numTracks : Nat) :
    List (Nat × JVal) :=
  json_tracks.enum.filterMap fun p =>
    let url := jget p.2 "coverart_url"
    if jTruthy url && decide (p.1 < numTracks) then
      url.map fun v => (p.1, v)
    else none

/-! ## Helper lemmas -/

/-- Pass 2 never emits anything from an all-unmatched sequence when
`last_track_key` is unset: the pending-gap guard `last_track_key is not None`
never fires. -/
theorem dedupLoop_all_none (l : List (Nat × Option TrackInfo))
    (h : ∀ e ∈ l, e.2 = none) : dedupLoop l none none = [] := by
  induction l with
  | nil => rfl
  | cons e rest ih =>
    obtain ⟨ts, info⟩ := e
    have he : info = none := h (ts, info) (List.mem_cons_self _ _)
    subst he
    simpa [dedupLoop] using ih fun e hm => h e (List.mem_cons_of_mem _ hm)

/-- Pass 1 maps an all-unmatched sequence to itself. -/
theorem filterSingles_all_none (rr : List (Nat × Option TrackInfo))
    (h : ∀ e ∈ rr, e.2 = none) : filterSingles rr = rr := by
  induction rr with
  | nil => rfl
  | cons e rest ih =>
    obtain ⟨ts, info⟩ := e
    have he : info = none := h (ts, info) (List.mem_cons_self _ _)
    subst he
    simpa [filterSingles] using ih fun e hm => h e (List.mem_cons_of_mem _ hm)

/-- Pass 1 keeps every entry unmatched if it was unmatched. -/
theorem filterSingles_none_of_none (rr : List (Nat × Option TrackInfo))
    (h : ∀ e ∈ rr, e.2 = none) : ∀ e ∈ filterSingles rr, e.2 = none := by
  rw [filterSingles_all_none rr h]; exact h

/-! ## Claim C1 -/

/-- C1, counterexample: on the all-unmatched sequence `[(0, None)]` the
reconciliation produces a tracklist with **no** tracks, not the single
unidentified track `(0, "", "")` required by the claim. -/
theorem c1_counterexample :
    deduplicate_tracklist [(0, (none : Option TrackInfo))] = [] ∧
    results_to_tracklist [(0, (none : Option TrackInfo))] (str "a.mp3") none
        (str "g")
      = .ok { source_file := str "a.mp3", tracks := [],
              generated_on := some (str "g") } ∧
    (deduplicate_tracklist [(0, (none : Option TrackInfo))]).length ≠ 1 := by
  refine ⟨by decide, by rfl, by decide⟩

/-- C1, amended: for every non-empty raw-result sequence in which every entry
is unmatched, the reconciliation produces an **empty** tracklist — the
leading/whole-file gap is suppressed because `last_track_key` starts unset,
so `pending_unidentified` is never assigned. -/
theorem c1_all_unmatched_empty (rr : List (Nat × Option TrackInfo))
    (src gen : Str) (hne : rr ≠ []) (hall : ∀ e ∈ rr, e.2 = none) :
    deduplicate_tracklist rr = [] ∧
    results_to_tracklist rr src none gen
      = .ok { source_file := src, tracks := [], generated_on := some gen } := by
  have hd : deduplicate_tracklist rr = [] := by
    unfold deduplicate_tracklist
    rw [filterSingles_all_none rr hall]
    exact dedupLoop_all_none rr hall
  refine ⟨hd, ?_⟩
  unfold results_to_tracklist overlayCorrections
  rw [hd]
  rfl

/-- C1, witness for the amended theorem at the concrete input
`[(0, None), (30, None)]`. -/
theorem c1_witness :
    ([(0, (none : Option TrackInfo)), (30, none)] ≠ []) ∧
    deduplicate_tracklist [(0, (none : Option TrackInfo)), (30, none)] = [] ∧
    results_to_tracklist [(0, (none : Option TrackInfo)), (30, none)]
        (str "b.mp3") none (str "g")
      = .ok { source_file := str "b.mp3", tracks := [],
              generated_on := some (str "g") } := by
  refine ⟨by decide, ?_⟩
  exact c1_all_unmatched_empty [(0, none), (30, none)] (str "b.mp3") (str "g")
    (by decide) (by decide)

/-! ## Claim C2 -/

/-- C2: the artwork URL cannot survive the sidecar round trip.  The call site
in `results_to_tracklist` passes the keyword argument `coverart_url`, but the
`Track` dataclass declares no such field, so converting any sequence with a
surviving matched entry raises `TypeError` (shown on the concrete input
`[(0, A/T), (30, A/T)]`); and the sidecar records written by
`Tracklist.to_json` carry no `coverart_url` key at all, so no reload can
restore one. -/
theorem c2_artwork_not_round_tripped :
    ("coverart_url" ∈ trackCtorKwargs ∧ "coverart_url" ∉ trackFieldNames) ∧
    results_to_tracklist
        [(0, some { title := str "T", artist := str "A" }),
         (30, some { title := str "T", artist := str "A" })]
        (str "t.mp3") none (str "g")
      = .error "TypeError: Track.__init__() got an unexpected keyword argument" ∧
    (∀ tl : Tracklist, ∀ rec ∈ tl.to_json, jget rec "coverart_url" = none) := by
  refine ⟨⟨by decide, by decide⟩, by rfl, ?_⟩
  intro tl rec hrec
  simp only [Tracklist.to_json, List.mem_map] at hrec
  obtain ⟨t, -, rfl⟩ := hrec
  rfl

/-- C2, witness: the sidecar record of a concrete saved track has no
`coverart_url` key to reload. -/
theorem c2_witness :
    [("timestamp", JVal.jnum 0), ("time", .jstr (str "0:00")),
     ("artist", .jstr (str "A")), ("title", .jstr (str "T")),
     ("rejected", .jbool false), ("shazam_url", .jnull), ("album", .jnull)]
      ∈ (Tracklist.to_json
          { source_file := str "s",
            tracks := [{ timestamp := 0, artist := str "A", title := str "T" }] }) ∧
    jget [("timestamp", JVal.jnum 0), ("time", .jstr (str "0:00")),
          ("artist", .jstr (str "A")), ("title", .jstr (str "T")),
          ("rejected", .jbool false), ("shazam_url", .jnull), ("album", .jnull)]
        "coverart_url" = none := by
  refine ⟨by decide, ?_⟩
  exact c2_artwork_not_round_tripped.2.2
    { source_file := str "s",
      tracks := [{ timestamp := 0, artist := str "A", title := str "T" }] }
    _ (by decide)

/-! ## Claim C3 -/

/-- The markdown content of the repository's own regression test
`test_matches_by_timestamp_not_index`: three tracks at 0:00, 3:00, 6:00. -/
def c3Markdown : Str :=
  str "# Tracklist: test.mp3\n\n*Generated on 2026-01-31 20:00*\n\n1. **Artist One** - Track One (0:00)\n2. **Artist Two** - Track Two (3:00)\n3. **Artist Three** - Track Three (6:00)\n"

/-- The sidecar of that test: the 3:00 track was rejected, so the JSON file
only carries records for timestamps 0 and 360. -/
def c3Json : List JObj :=
  [[("timestamp", .jnum 0), ("time", .jstr (str "0:00")),
    ("artist", .jstr (str "Artist One")), ("title", .jstr (str "Track One")),
    ("coverart_url", .jstr (str "https://example.com/art1.jpg"))],
   [("timestamp", .jnum 360), ("time", .jstr (str "6:00")),
    ("artist", .jstr (str "Artist Three")), ("title", .jstr (str "Track Three")),
    ("coverart_url", .jstr (str "https://example.com/art3.jpg"))]]

set_option maxRecDepth 8000 in
/-- C3: `_load_tracklist_with_artwork_urls` matches sidecar records to
markdown tracks **by positional index**, not by timestamp.  On the repository's
own test input, the sidecar record whose `timestamp` field is 360 is assigned
to markdown index 1 — the track at timestamp 180 — and the track at timestamp
360 (index 2) receives nothing, violating the claim (and the repository's test
`test_matches_by_timestamp_not_index`). -/
theorem c3_sidecar_matched_by_index :
    (parse_markdown_tracklist c3Markdown).tracks.map Track.timestamp
      = [0, 180, 360] ∧
    jget (c3Json.getD 1 []) "timestamp" = some (.jnum 360) ∧
    loadArtworkByIndex c3Json
        (parse_markdown_tracklist c3Markdown).tracks.length
      = [(0, .jstr (str "https://example.com/art1.jpg")),
         (1, .jstr (str "https://example.com/art3.jpg"))] := by
  refine ⟨by decide, by decide, by decide⟩

/-! ## Claim C8 -/

/-- Applying an empty correction store changes nothing and counts zero. -/
theorem apply_corrections_go_empty (l : List Track) :
    apply_corrections_go { corrections := [] } l = (l, 0) := by
  induction l with
  | nil => rfl
  | cons tr rest ih =>
    simp only [apply_corrections_go, ih]
    by_cases h : tr.is_unidentified = true <;>
      simp [h, get_correction, dictFind]

/-- Untyped dictionary lookup agrees with typed lookup on encoded stores. -/
theorem dictFindP_encode (m : List (Str × CorrEntry)) (k : Str) :
    dictFindP k (m.map fun p => (p.1, encodeEntry p.2))
      = (dictFind k m).map encodeEntry := by
  induction m with
  | nil => rfl
  | cons p rest ih =>
    obtain ⟨k', v⟩ := p
    simp only [List.map_cons, dictFindP, dictFind]
    by_cases h : k' = k <;> simp [h, ih]

/-- The typed store refines the raw one: on the encoding of a well-typed
corrections dictionary, the raw `add_correction` does not raise and produces
the encoding of the typed `add_correction`. -/
theorem add_correction_raw_encode (m : List (Str × CorrEntry))
    (oa ot ca ct now : Str) :
    add_correction_raw (encodeCorrections m) oa ot ca ct now
      = .ok (encodeCorrections
          (add_correction { corrections := m } oa ot ca ct now).corrections) := by
  simp only [add_correction_raw, pySetItem, encodeCorrections, add_correction,
    dictSet, dictFindP_encode, Option.isSome_map']
  by_cases h : (dictFind (make_key oa ot) m).isSome
  · simp only [h, if_true, List.map_map, Except.ok.injEq, PyVal.pdict.injEq]
    refine List.map_congr_left fun p _ => ?_
    by_cases hp : p.1 = make_key oa ot <;> simp [hp, Function.comp]
  · simp [h]

/-- C8, counterexample: a corrections file holding valid JSON that is not an
object — here the list `[1, 2]` — makes `data.get` raise `AttributeError`,
which the `except (json.JSONDecodeError, IOError)` clause at editor.py line
948 does not catch, so constructing `CorrectionsDB` raises; and a JSON object
whose `"corrections"` value is the string `"x"` loads without raising but
leaves a store on which `add_correction` raises `TypeError`. -/
theorem c8_counterexample :
    load_corrections (.decoded (.plist [.pnum 1, .pnum 2]))
        = .error (str "AttributeError") ∧
    load_corrections (.decoded (.pdict [(str "corrections", .pstr (str "x"))]))
        = .ok (.pstr (str "x")) ∧
    add_correction_raw (.pstr (str "x")) (str "A") (str "T") (str "B")
        (str "U") (str "now") = .error (str "TypeError") :=
  ⟨rfl, rfl, rfl⟩

/-- C8, amended: an absent corrections file, an unreadable one (`IOError`) and
one that fails JSON decoding all construct the store without raising and leave
it empty, and the empty store is fully usable — lookups answer `None`, a
recorded correction is found again, and applying it to any tracklist changes
nothing and reports zero corrections; a file decoding to a JSON object with a
well-typed `"corrections"` entry loads that dictionary without raising.  (A
file decoding to a non-object raises `AttributeError` out of the constructor —
see the counterexample.) -/
theorem c8_amended :
    load_corrections .absent = .ok (encodeCorrections []) ∧
    load_corrections .ioerror = .ok (encodeCorrections []) ∧
    load_corrections .undecodable = .ok (encodeCorrections []) ∧
    (∀ m, load_corrections (.decoded (.pdict [(str "corrections",
        encodeCorrections m)])) = .ok (encodeCorrections m)) ∧
    (∀ a t, get_correction { corrections := [] } a t = none) ∧
    (∀ oa ot ca ct now,
      get_correction (add_correction { corrections := [] } oa ot ca ct now)
          oa ot = some (ca, ct)) ∧
    (∀ tl, apply_corrections { corrections := [] } tl = (tl, 0)) := by
  refine ⟨rfl, rfl, rfl, fun m => ?_, fun a t => rfl,
    fun oa ot ca ct now => ?_, fun tl => ?_⟩
  · simp [load_corrections, dictFindP]
  · simp [get_correction, add_correction, dictSet, dictFind]
  · simp [apply_corrections, apply_corrections_go_empty]

/-! ## Claim C9 -/

/-- C9, counterexample: a correction whose corrected pair equals its original
pair is counted by `apply_corrections` even though the track's artist/title do
not change, so the returned count is **not** "exactly once per track whose
artist/title actually changed" (here: count 1, zero tracks changed). -/
theorem c9_counterexample :
    apply_corrections
        (add_correction { corrections := [] } (str "A") (str "T")
          (str "A") (str "T") (str "now"))
        { source_file := str "s",
          tracks := [{ timestamp := 0, artist := str "A", title := str "T" }] }
      = ({ source_file := str "s",
           tracks := [{ timestamp := 0, artist := str "A", title := str "T",
                        original_artist := some (str "A"),
                        original_title := some (str "T") }] }, 1) ∧
    ((apply_corrections
        (add_correction { corrections := [] } (str "A") (str "T")
          (str "A") (str "T") (str "now"))
        { source_file := str "s",
          tracks := [{ timestamp := 0, artist := str "A", title := str "T" }] }).1.tracks.filter
      fun tr => !(tr.artist = str "A" && tr.title = str "T")).length = 0 := by
  refine ⟨by decide, by decide⟩

/-- C9, amended: `apply_corrections` leaves every unidentified track (empty
artist and title) untouched without looking it up, rewrites every other track
for which the store holds a correction — setting `originalArtist` /
`originalTitle` to the pre-correction values — and returns the number of
tracks for which a correction entry was **found** (which can exceed the number
of tracks whose artist/title actually changed). -/
theorem c9_amended (db : CorrectionsDB) (tl : Tracklist) :
    (apply_corrections db tl).1.tracks
      = (tl.tracks.map fun tr =>
          if tr.is_unidentified then tr
          else
            match get_correction db tr.artist tr.title with
            | some (a, t) =>
              { tr with original_artist := some tr.artist,
                        original_title := some tr.title,
                        artist := a, title := t }
            | none => tr) ∧
    (apply_corrections db tl).2
      = (tl.tracks.filter fun tr =>
          !tr.is_unidentified
            && (get_correction db tr.artist tr.title).isSome).length := by
  suffices h : ∀ l : List Track,
      apply_corrections_go db l
        = (l.map fun tr =>
            if tr.is_unidentified then tr
            else
              match get_correction db tr.artist tr.title with
              | some (a, t) =>
                { tr with original_artist := some tr.artist,
                          original_title := some tr.title,
                          artist := a, title := t }
              | none => tr,
           (l.filter fun tr =>
            !tr.is_unidentified
              && (get_correction db tr.artist tr.title).isSome).length) by
    constructor
    · simp [apply_corrections, h tl.tracks]
    · simp [apply_corrections, h tl.tracks]
  intro l
  induction l with
  | nil => rfl
  | cons tr rest ih =>
    simp only [apply_corrections_go, ih]
    by_cases hu : tr.is_unidentified = true
    · simp [hu, List.filter]
    · rcases hg : get_correction db tr.artist tr.title with _ | ⟨a, t⟩ <;>
        simp [hu, hg, List.filter]

/-! ## Claim C5 -/

/-- Every matched entry emitted by pass 2 occurs (as a matched entry) in the
pass-2 input. -/
theorem dedupLoop_matched_mem (l : List (Nat × Option TrackInfo))
    (lk : Option (Str × Str)) (p : Option Nat) (ts : Nat) (i : TrackInfo)
    (h : (ts, some i) ∈ dedupLoop l lk p) : ∃ ts', (ts', some i) ∈ l := by
  induction l generalizing lk p with
  | nil =>
    exfalso
    cases p <;> simp [dedupLoop] at h
  | cons e rest ih =>
    obtain ⟨ts0, info0⟩ := e
    cases info0 with
    | none =>
      cases lk <;> cases p <;>
        · simp only [dedupLoop] at h
          obtain ⟨ts', h'⟩ := ih _ _ h
          exact ⟨ts', List.mem_cons_of_mem _ h'⟩
    | some info =>
      by_cases hk : some (keyOf info) = lk
      · simp only [dedupLoop, if_pos hk] at h
        obtain ⟨ts', h'⟩ := ih _ _ h
        exact ⟨ts', List.mem_cons_of_mem _ h'⟩
      · simp only [dedupLoop, if_neg hk] at h
        rcases List.mem_append.1 h with hp | hc
        · exfalso; cases p <;> simp at hp
        · rcases List.mem_cons.1 hc with he | hm
          · obtain ⟨h1, h2⟩ := Prod.mk.injEq .. ▸ he
            exact ⟨ts0, by simp [← h2]⟩
          · obtain ⟨ts', h'⟩ := ih _ _ hm
            exact ⟨ts', List.mem_cons_of_mem _ h'⟩

/-- A matched entry that survives pass 1 has a key counted more than once. -/
theorem filterSingles_matched_count (rr : List (Nat × Option TrackInfo))
    (ts : Nat) (i : TrackInfo) (h : (ts, some i) ∈ filterSingles rr) :
    countKey rr (keyOf i) ≠ 1 := by
  simp only [filterSingles, List.mem_map] at h
  obtain ⟨⟨ts0, info0⟩, -, heq⟩ := h
  cases info0 with
  | none => simp at heq
  | some j =>
    simp only at heq
    by_cases hc : countKey rr (keyOf j) = 1
    · rw [if_pos hc] at heq
      simp at heq
    · rw [if_neg hc] at heq
      obtain ⟨-, h2⟩ := Prod.mk.injEq .. ▸ heq
      obtain rfl : j = i := by simpa using h2
      exact hc

/-- C5: a matched key occurring exactly once in the whole sample sequence
never appears as a matched entry of the reconciled output (singleton
suppression), and on the concrete input
`[(0,"A","T1"), (30,"A","T1"), (60,"B","Once")]` the output is exactly
`[(0, A/T1), (60, unidentified)]`. -/
theorem c5_singleton_suppression :
    (∀ (rr : List (Nat × Option TrackInfo)) (k : Str × Str),
      countKey rr k = 1 →
      ((deduplicate_tracklist rr).all fun e =>
        match e.2 with
        | some i => decide (keyOf i ≠ k)
        | none => true) = true) ∧
    deduplicate_tracklist
        [(0, some { title := str "T1", artist := str "A" }),
         (30, some { title := str "T1", artist := str "A" }),
         (60, some { title := str "Once", artist := str "B" })]
      = [(0, some { title := str "T1", artist := str "A" }), (60, none)] := by
  constructor
  · intro rr k hk
    rw [List.all_eq_true]
    rintro ⟨ts, info⟩ hmem
    cases info with
    | none => rfl
    | some i =>
      simp only [decide_eq_true_eq]
      intro hkey
      obtain ⟨ts', hmem'⟩ := dedupLoop_matched_mem _ _ _ _ _ hmem
      exact filterSingles_matched_count rr ts' i hmem' (hkey ▸ hk)
  · decide

/-- C5, witness: a concrete one-off key with count 1 is absent from the
output, which the amended `all`-form certifies. -/
theorem c5_witness :
    countKey
        [(0, some { title := str "t", artist := str "a" }),
         (30, some { title := str "u", artist := str "b" }),
         (60, some { title := str "u", artist := str "b" })]
        (str "t", str "a") = 1 ∧
    ((deduplicate_tracklist
        [(0, some { title := str "t", artist := str "a" }),
         (30, some { title := str "u", artist := str "b" }),
         (60, some { title := str "u", artist := str "b" })]).all fun e =>
      match e.2 with
      | some i => decide (keyOf i ≠ (str "t", str "a"))
      | none => true) = true :=
  ⟨by decide,
   c5_singleton_suppression.1
     [(0, some { title := str "t", artist := str "a" }),
      (30, some { title := str "u", artist := str "b" }),
      (60, some { title := str "u", artist := str "b" })]
     (str "t", str "a") (by decide)⟩


/-! ## Claim C10 -/

/-- Mapping a first-component-preserving function preserves the first
column. -/
theorem map_fst_of_fst_eq {α β γ : Type} (f : α × β → α × γ)
    (hf : ∀ e, (f e).1 = e.1) (l : List (α × β)) :
    (l.map f).map Prod.fst = l.map Prod.fst := by
  induction l with
  | nil => rfl
  | cons e rest ih => simp [hf, ih]

/-- The timestamps emitted by pass 2 form a subsequence of the pending
timestamp (if any) followed by the input timestamps. -/
theorem dedupLoop_fst_sublist (l : List (Nat × Option TrackInfo))
    (lk : Option (Str × Str)) (p : Option Nat) :
    ((dedupLoop l lk p).map Prod.fst).Sublist (p.toList ++ l.map Prod.fst) := by
  induction l generalizing lk p with
  | nil =>
    cases p <;> simp [dedupLoop]
  | cons e rest ih =>
    obtain ⟨ts0, info0⟩ := e
    cases info0 with
    | none =>
      have hstep : (p.toList ++ rest.map Prod.fst).Sublist
          (p.toList ++ ((ts0, (none : Option TrackInfo)) :: rest).map Prod.fst) := by
        simp only [List.map_cons]
        exact (List.sublist_cons_self _ _).append_left p.toList
      cases lk with
      | none =>
        cases p <;>
          · simp only [dedupLoop]
            exact (ih _ _).trans hstep
      | some k =>
        cases p with
        | none =>
          simp only [dedupLoop, List.map_cons]
          simpa using ih (some k) (some ts0)
        | some t =>
          simp only [dedupLoop]
          exact (ih _ _).trans hstep
    | some info =>
      by_cases hk : some (keyOf info) = lk
      · simp only [dedupLoop, if_pos hk, List.map_cons]
        refine (ih _ _).trans ?_
        exact (List.sublist_cons_self _ _).append_left p.toList
      · simp only [dedupLoop, if_neg hk, List.map_append, List.map_cons]
        have hpend : (match p with
            | some t => [(t, (none : Option TrackInfo))]
            | none => []).map Prod.fst = p.toList := by
          cases p <;> rfl
        rw [hpend]
        have hrec := ih (some (keyOf info)) none
        simp only [Option.toList_none, List.nil_append] at hrec
        exact ((hrec.cons₂ ts0).append_left p.toList)

/-- Pass 1 preserves the timestamp column. -/
theorem filterSingles_fst (rr : List (Nat × Option TrackInfo)) :
    (filterSingles rr).map Prod.fst = rr.map Prod.fst := by
  unfold filterSingles
  refine map_fst_of_fst_eq _ ?_ rr
  rintro ⟨ts, info⟩
  cases info <;> rfl

/-- The correction overlay preserves the timestamp column. -/
theorem overlayCorrections_fst (db : Option CorrectionsDB)
    (rr : List (Nat × Option TrackInfo)) :
    (overlayCorrections db rr).map Prod.fst = rr.map Prod.fst := by
  cases db with
  | none => rfl
  | some db =>
    unfold overlayCorrections
    refine map_fst_of_fst_eq _ ?_ rr
    rintro ⟨ts, info⟩
    cases info with
    | none => rfl
    | some i =>
      cases hg : get_correction db i.artist i.title with
      | none => simp [hg]
      | some p => obtain ⟨a, t⟩ := p; simp [hg]

/-- The reconciled timestamps are a subsequence of the input timestamps. -/
theorem deduplicate_fst_sublist (rr : List (Nat × Option TrackInfo)) :
    ((deduplicate_tracklist rr).map Prod.fst).Sublist (rr.map Prod.fst) := by
  have h := dedupLoop_fst_sublist (filterSingles rr) none none
  simpa [filterSingles_fst] using h

/-- Successfully converted tracks carry exactly the deduplicated timestamps. -/
theorem mapM_track_timestamps (l : List (Nat × Option TrackInfo))
    (tracks : List Track) (h : l.mapM track_from_entry = Except.ok tracks) :
    tracks.map Track.timestamp = l.map Prod.fst := by
  induction l generalizing tracks with
  | nil =>
    simp only [List.mapM_nil, pure, Except.pure] at h
    cases h
    rfl
  | cons e rest ih =>
    rw [List.mapM_cons] at h
    cases he : track_from_entry e with
    | error msg => rw [he] at h; exact absurd h (by simp [bind, Except.bind])
    | ok tr =>
      rw [he] at h
      cases hr : rest.mapM track_from_entry with
      | error msg =>
        rw [hr] at h; exact absurd h (by simp [bind, Except.bind])
      | ok ts' =>
        rw [hr] at h
        simp only [bind, Except.bind, pure, Except.pure] at h
        cases h
        have htr : tr.timestamp = e.1 := by
          obtain ⟨ts0, info0⟩ := e
          cases info0 with
          | none => cases he; rfl
          | some i =>
            simp only [track_from_entry] at he
            split at he
            · cases he; rfl
            · cases he
        simp [List.map_cons, htr, ih ts' hr]

/-- C10: for every raw sequence with strictly increasing timestamps the
reconciled sequence has strictly increasing, pairwise-distinct timestamps, all
drawn from the input (a subsequence of the input timestamps), and any
`Tracklist` actually produced by `results_to_tracklist` inherits the same
strictly-ascending, duplicate-free timestamp order. -/
theorem c10_timestamps_sorted_unique (rr : List (Nat × Option TrackInfo))
    (src gen : Str) (db : Option CorrectionsDB)
    (h : (rr.map Prod.fst).Pairwise (· < ·)) :
    ((deduplicate_tracklist rr).map Prod.fst).Pairwise (· < ·) ∧
    ((deduplicate_tracklist rr).map Prod.fst).Nodup ∧
    ((deduplicate_tracklist rr).map Prod.fst).Sublist (rr.map Prod.fst) ∧
    (∀ tl, results_to_tracklist rr src db gen = .ok tl →
      (tl.tracks.map Track.timestamp).Pairwise (· < ·) ∧
      (tl.tracks.map Track.timestamp).Nodup) := by
  have hsub := deduplicate_fst_sublist rr
  have hpw : ((deduplicate_tracklist rr).map Prod.fst).Pairwise (· < ·) :=
    h.sublist hsub
  refine ⟨hpw, hpw.imp Nat.ne_of_lt, hsub, ?_⟩
  intro tl htl
  simp only [results_to_tracklist, bind, Except.bind] at htl
  cases hm : (deduplicate_tracklist (overlayCorrections db rr)).mapM
      track_from_entry with
  | error msg => rw [hm] at htl; cases htl
  | ok tracks =>
    rw [hm] at htl
    simp only [pure, Except.pure] at htl
    cases htl
    have hts := mapM_track_timestamps _ _ hm
    have hsub' := deduplicate_fst_sublist (overlayCorrections db rr)
    rw [overlayCorrections_fst] at hsub'
    have hpw' : (tracks.map Track.timestamp).Pairwise (· < ·) := by
      rw [hts]; exact h.sublist hsub'
    exact ⟨hpw', hpw'.imp Nat.ne_of_lt⟩

/-- C10, witness: the invariant holds on the concrete increasing-timestamp
input `[(0,X), (30,X), (60,None), (90,X)]`. -/
theorem c10_witness :
    ((deduplicate_tracklist
        [(0, some { title := str "x", artist := str "a" }),
         (30, some { title := str "x", artist := str "a" }),
         (60, none),
         (90, some { title := str "x", artist := str "a" })]).map
      Prod.fst).Pairwise (· < ·) :=
  (c10_timestamps_sorted_unique
    [(0, some { title := str "x", artist := str "a" }),
     (30, some { title := str "x", artist := str "a" }),
     (60, none),
     (90, some { title := str "x", artist := str "a" })]
    (str "s") (str "g") none (by decide)).1

/-! ## Claim C4 -/

/-- The append-one-per-step fold is the seed followed by a map. -/
theorem foldl_append_map {α β : Type} (f : α → β) (l : List α) (init : List β) :
    l.foldl (fun acc e => acc ++ [f e]) init = init ++ l.map f := by
  induction l generalizing init with
  | nil => simp
  | cons e rest ih => simp [ih, List.append_assoc]

/-- The per-file loop appends the recognition of every slice past the
resumed snapshot. -/
theorem process_file_raw_eq {α : Type} (slices : List (Nat × α))
    (identify : α → Option TrackInfo)
    (resumed : List (Nat × Option TrackInfo)) :
    process_file_raw slices identify resumed
      = resumed ++ (slices.drop resumed.length).map
          fun e => (e.1, identify e.2) := by
  unfold process_file_raw
  exact foldl_append_map _ _ _

/-- C4: resuming from a snapshot holding the first `k` results queries exactly
the slices from index `k` on (no already-saved sample is re-submitted), the
raw-result sequence it completes equals the uninterrupted run's, and the final
reconciled tracklist is identical to the uninterrupted run's. -/
theorem c4_resume_equivalence {α : Type} (slices : List (Nat × α))
    (identify : α → Option TrackInfo) (k : Nat) (src gen : Str)
    (db : Option CorrectionsDB) (hk : k < slices.length) :
    queried_slices slices ((process_file_raw slices identify []).take k)
      = slices.drop k ∧
    process_file_raw slices identify
        ((process_file_raw slices identify []).take k)
      = process_file_raw slices identify [] ∧
    process_file_tracklist slices identify
        ((process_file_raw slices identify []).take k) src db gen
      = process_file_tracklist slices identify [] src db gen := by
  set f : Nat × α → Nat × Option TrackInfo := fun e => (e.1, identify e.2) with hf
  have hfull : process_file_raw slices identify [] = slices.map f := by
    rw [process_file_raw_eq]; simp
  have hlen : ((process_file_raw slices identify []).take k).length = k := by
    rw [hfull, List.length_take, List.length_map]
    omega
  have hq : queried_slices slices
      ((process_file_raw slices identify []).take k) = slices.drop k := by
    unfold queried_slices
    rw [hlen]
  have hraw : process_file_raw slices identify
      ((process_file_raw slices identify []).take k)
      = process_file_raw slices identify [] := by
    rw [process_file_raw_eq, hlen, hfull, ← List.map_take, ← hf,
      ← List.map_append, List.take_append_drop]
  exact ⟨hq, hraw, by unfold process_file_tracklist; rw [hraw]⟩

/-- C4, witness: resuming a two-slice file from the snapshot of its first
result re-queries only the second slice and reproduces the uninterrupted raw
results. -/
theorem c4_witness :
    queried_slices [(0, 10), (30, 20)]
        ((process_file_raw [(0, 10), (30, 20)]
          (fun v => if v = 10 then some { title := str "t", artist := str "a" }
                    else none) []).take 1)
      = [(30, 20)] ∧
    process_file_raw [(0, 10), (30, 20)]
        (fun v => if v = 10 then some { title := str "t", artist := str "a" }
                  else none)
        ((process_file_raw [(0, 10), (30, 20)]
          (fun v => if v = 10 then some { title := str "t", artist := str "a" }
                    else none) []).take 1)
      = process_file_raw [(0, 10), (30, 20)]
          (fun v => if v = 10 then some { title := str "t", artist := str "a" }
                    else none) [] := by
  have h := c4_resume_equivalence [(0, 10), (30, 20)]
    (fun v => if v = 10 then some { title := str "t", artist := str "a" }
              else none)
    1 (str "s") (str "g") none (by decide)
  exact ⟨h.1, h.2.1⟩

/-! ## Claim C7 -/

/-- The retry loop performs at most `remaining` recognition calls. -/
theorem retryGo_calls_le (orc : Nat → Except Str (Option ShazamTrack))
    (jit : Nat → ℚ) (attempt remaining : Nat) (backoff : ℚ) :
    (retryGo orc jit attempt remaining backoff).calls ≤ remaining := by
  induction remaining generalizing attempt backoff with
  | zero => simp [retryGo]
  | succ remaining ih =>
    have hhandle : ∀ msg,
        ((if isRateLimited msg = true then
            if 0 < remaining then
              { result := (retryGo orc jit (attempt + 1) remaining
                  (backoff * 2)).result,
                waits := (backoff + jit attempt) :: (retryGo orc jit
                  (attempt + 1) remaining (backoff * 2)).waits,
                calls := (retryGo orc jit (attempt + 1) remaining
                  (backoff * 2)).calls + 1 }
            else { result := none, waits := [], calls := 1 }
          else { result := none, waits := [], calls := 1 } :
            RetryTrace)).calls ≤ remaining + 1 := by
      intro msg
      by_cases hrl : isRateLimited msg = true
      · by_cases hrem : 0 < remaining
        · simpa [hrl, hrem] using Nat.succ_le_succ (ih (attempt + 1) (backoff * 2))
        · simp [hrl, hrem]
      · simp [hrl]
    cases he : orc attempt with
    | ok r =>
      cases r with
      | some track =>
        cases hx : extract_track_info track with
        | ok info => simp [retryGo, he, hx]
        | error msg =>
          refine le_trans (le_of_eq ?_) (hhandle msg)
          simp [retryGo, he, hx]
      | none => simp [retryGo, he]
    | error msg =>
      refine le_trans (le_of_eq ?_) (hhandle msg)
      simp [retryGo, he]

/-- C7: per-sample recognition is a total function into an optional result
(no propagated exception): it makes at most `MAX_RETRIES = 5` recognition
calls; a non-rate-limit error on the first attempt yields an unmatched result
immediately with no backoff sleep; five consecutive rate-limit errors yield an
unmatched result after exactly the four exponential backoff sleeps
`30·2^i + jitter(i)`, i = 0..3; and under the code's jitter range
`0 ≤ jitter(i) ≤ (30·2^i)/10` each sleep lies between the backoff and 110% of
it. -/
theorem c7_retry_backoff :
    (∀ orc jit, (identify_sample_with_retry orc jit).calls ≤ MAX_RETRIES) ∧
    (∀ orc jit msg, orc 0 = .error msg → isRateLimited msg = false →
      identify_sample_with_retry orc jit
        = { result := none, waits := [], calls := 1 }) ∧
    (∀ orc jit (ms : Nat → Str),
      (∀ i, i < MAX_RETRIES → orc i = .error (ms i)) →
      (∀ i, i < MAX_RETRIES → isRateLimited (ms i) = true) →
      identify_sample_with_retry orc jit
        = { result := none,
            waits := [30 + jit 0, 60 + jit 1, 120 + jit 2, 240 + jit 3],
            calls := 5 }) ∧
    (∀ orc jit (ms : Nat → Str),
      (∀ i, i < MAX_RETRIES → orc i = .error (ms i)) →
      (∀ i, i < MAX_RETRIES → isRateLimited (ms i) = true) →
      (∀ i, 0 ≤ jit i ∧ jit i ≤ INITIAL_BACKOFF * 2 ^ i / 10) →
      ((identify_sample_with_retry orc jit).waits.getD 0 0 ∈ Set.Icc (30 : ℚ) 33 ∧
       (identify_sample_with_retry orc jit).waits.getD 1 0 ∈ Set.Icc (60 : ℚ) 66 ∧
       (identify_sample_with_retry orc jit).waits.getD 2 0 ∈ Set.Icc (120 : ℚ) 132 ∧
       (identify_sample_with_retry orc jit).waits.getD 3 0 ∈ Set.Icc (240 : ℚ) 264)) := by
  have hrun : ∀ (orc : Nat → Except Str (Option ShazamTrack)) (jit : Nat → ℚ)
      (ms : Nat → Str),
      (∀ i, i < MAX_RETRIES → orc i = .error (ms i)) →
      (∀ i, i < MAX_RETRIES → isRateLimited (ms i) = true) →
      identify_sample_with_retry orc jit
        = { result := none,
            waits := [30 + jit 0, 60 + jit 1, 120 + jit 2, 240 + jit 3],
            calls := 5 } := by
    intro orc jit ms horc hrl
    have h0 := horc 0 (by norm_num [MAX_RETRIES])
    have h1 := horc 1 (by norm_num [MAX_RETRIES])
    have h2 := horc 2 (by norm_num [MAX_RETRIES])
    have h3 := horc 3 (by norm_num [MAX_RETRIES])
    have h4 := horc 4 (by norm_num [MAX_RETRIES])
    have r0 := hrl 0 (by norm_num [MAX_RETRIES])
    have r1 := hrl 1 (by norm_num [MAX_RETRIES])
    have r2 := hrl 2 (by norm_num [MAX_RETRIES])
    have r3 := hrl 3 (by norm_num [MAX_RETRIES])
    have r4 := hrl 4 (by norm_num [MAX_RETRIES])
    show retryGo orc jit 0 MAX_RETRIES INITIAL_BACKOFF = _
    simp only [MAX_RETRIES, INITIAL_BACKOFF]
    simp only [retryGo, h0, h1, h2, h3, h4, r0, r1, r2, r3, r4]
    norm_num
  refine ⟨fun orc jit => retryGo_calls_le orc jit 0 MAX_RETRIES INITIAL_BACKOFF,
    ?_, hrun, ?_⟩
  · intro orc jit msg h0 hrl
    show retryGo orc jit 0 MAX_RETRIES INITIAL_BACKOFF = _
    rw [show MAX_RETRIES = 4 + 1 from rfl]
    simp [retryGo, h0, hrl]
  · intro orc jit ms horc hrl hjit
    rw [hrun orc jit ms horc hrl]
    have b0 := hjit 0
    have b1 := hjit 1
    have b2 := hjit 2
    have b3 := hjit 3
    norm_num [INITIAL_BACKOFF] at b0 b1 b2 b3
    simp only [List.getD, Set.mem_Icc]
    norm_num
    refine ⟨⟨by linarith, by linarith⟩, ⟨by linarith, by linarith⟩,
      ⟨by linarith, by linarith⟩, ⟨by linarith, by linarith⟩⟩

/-- C7, witness: an oracle that always answers a rate-limit error, with zero
jitter, is retried with the backoff schedule 30, 60, 120, 240 and then
downgraded to an unmatched result after exactly 5 recognition calls. -/
theorem c7_witness :
    identify_sample_with_retry
        (fun _ => .error (str "429 too many requests")) (fun _ => 0)
      = { result := none, waits := [30 + 0, 60 + 0, 120 + 0, 240 + 0],
          calls := 5 } ∧
    identify_sample_with_retry
        (fun _ => .error (str "audio decode failure")) (fun _ => 0)
      = { result := none, waits := [], calls := 1 } := by
  constructor
  · exact c7_retry_backoff.2.2.1
      (fun _ => .error (str "429 too many requests")) (fun _ => 0)
      (fun _ => str "429 too many requests")
      (fun i _ => rfl)
      (fun i _ =>
        show isRateLimited (str "429 too many requests") = true by decide)
  · exact c7_retry_backoff.2.1
      (fun _ => .error (str "audio decode failure")) (fun _ => 0)
      (str "audio decode failure") rfl (by decide)

/-! ## Claim C6 — supporting lemmas

The round-trip theorem needs: correctness of the decimal rendering against
the digit parser, determinism lemmas for the greedy pieces of the track
pattern, exactness of the lazy groups on safe artist/title strings, and the
strip/join/split plumbing of the whole document. -/

/-- `digitChar` produces a decimal digit character. -/
theorem digitChar_isDigit (d : Nat) (h : d < 10) :
    (digitChar d).isDigit = true := by
  interval_cases d <;> decide

/-- Reading a digit character back gives the digit. -/
theorem digitChar_val (d : Nat) (h : d < 10) :
    (digitChar d).toNat - '0'.toNat = d := by
  interval_cases d <;> decide

/-- Splitting the last character out of the digit fold. -/
theorem digitsToNat_concat (xs : Str) (c : Char) :
    digitsToNat (xs ++ [c]) = digitsToNat xs * 10 + (c.toNat - '0'.toNat) := by
  simp [digitsToNat, List.foldl_append]

/-- With enough fuel, the decimal rendering is nonempty, consists of digits,
and reads back to the value. -/
theorem natDigitsAux_spec (fuel : Nat) :
    ∀ n, n < fuel →
      natDigitsAux fuel n ≠ [] ∧
      (∀ c ∈ natDigitsAux fuel n, c.isDigit = true) ∧
      digitsToNat (natDigitsAux fuel n) = n := by
  induction fuel with
  | zero => intro n hn; omega
  | succ fuel ih =>
    intro n hn
    by_cases h10 : n < 10
    · refine ⟨by simp [natDigitsAux, h10], ?_, ?_⟩
      · intro c hc
        simp [natDigitsAux, h10] at hc
        subst hc
        exact digitChar_isDigit n h10
      · simp only [natDigitsAux, if_pos h10, digitsToNat, List.foldl]
        simpa using digitChar_val n h10
    · have hdiv : n / 10 < fuel := by omega
      obtain ⟨hne, hdig, hval⟩ := ih (n / 10) hdiv
      simp only [natDigitsAux, if_neg h10]
      refine ⟨by simp, ?_, ?_⟩
      · intro c hc
        rcases List.mem_append.1 hc with hc | hc
        · exact hdig c hc
        · simp at hc
          subst hc
          exact digitChar_isDigit (n % 10) (Nat.mod_lt n (by omega))
      · rw [digitsToNat_concat, hval, digitChar_val (n % 10) (Nat.mod_lt n (by omega))]
        omega

/-- `natDigits n` is nonempty. -/
theorem natDigits_ne_nil (n : Nat) : natDigits n ≠ [] :=
  (natDigitsAux_spec (n + 1) n (by omega)).1

/-- `natDigits n` consists of digit characters. -/
theorem natDigits_isDigit (n : Nat) : ∀ c ∈ natDigits n, c.isDigit = true :=
  (natDigitsAux_spec (n + 1) n (by omega)).2.1

/-- `int(f"{n}") = n`. -/
theorem digitsToNat_natDigits (n : Nat) : digitsToNat (natDigits n) = n :=
  (natDigitsAux_spec (n + 1) n (by omega)).2.2

/-- `pad2 n` is nonempty and all digits. -/
theorem pad2_isDigit (n : Nat) : ∀ c ∈ pad2 n, c.isDigit = true := by
  intro c hc
  unfold pad2 at hc
  by_cases h : n < 10
  · rw [if_pos h] at hc
    rcases List.mem_cons.1 hc with hc | hc
    · subst hc; decide
    · exact natDigits_isDigit n c hc
  · rw [if_neg h] at hc
    exact natDigits_isDigit n c hc

/-- `pad2 n` is nonempty. -/
theorem pad2_ne_nil (n : Nat) : pad2 n ≠ [] := by
  unfold pad2
  by_cases h : n < 10
  · simp [h]
  · simp [h, natDigits_ne_nil]

/-- A leading zero does not change the parsed value. -/
theorem digitsToNat_cons_zero (ds : Str) :
    digitsToNat ('0' :: ds) = digitsToNat ds := by
  simp [digitsToNat]

/-- `int(f"{n:02d}") = n`. -/
theorem digitsToNat_pad2 (n : Nat) : digitsToNat (pad2 n) = n := by
  unfold pad2
  by_cases h : n < 10
  · rw [if_pos h, digitsToNat_cons_zero, digitsToNat_natDigits]
  · rw [if_neg h, digitsToNat_natDigits]

/-- Greedy `takeWhile` over a block of satisfying characters followed by a
stopper. -/
theorem takeWhile_block (p : Char → Bool) (xs : Str) (y : Char) (r : Str)
    (hxs : ∀ c ∈ xs, p c = true) (hy : p y = false) :
    (xs ++ y :: r).takeWhile p = xs := by
  induction xs with
  | nil => simp [List.takeWhile, hy]
  | cons c t ih =>
    have hc : p c = true := hxs c (List.mem_cons_self _ _)
    simp only [List.cons_append, List.takeWhile_cons, hc]
    simp [ih fun c hc => hxs c (List.mem_cons_of_mem _ hc)]

/-- Greedy `dropWhile` over a block of satisfying characters followed by a
stopper. -/
theorem dropWhile_block (p : Char → Bool) (xs : Str) (y : Char) (r : Str)
    (hxs : ∀ c ∈ xs, p c = true) (hy : p y = false) :
    (xs ++ y :: r).dropWhile p = y :: r := by
  induction xs with
  | nil => simp [List.dropWhile, hy]
  | cons c t ih =>
    have hc : p c = true := hxs c (List.mem_cons_self _ _)
    simp only [List.cons_append, List.dropWhile_cons, hc]
    simpa using ih fun c hc => hxs c (List.mem_cons_of_mem _ hc)

/-- When `dropWhile` stops inside `t`, appending to `t` appends past it. -/
theorem dropWhile_append_ne_nil (p : Char → Bool) (t s : Str)
    (h : t.dropWhile p ≠ []) :
    (t ++ s).dropWhile p = t.dropWhile p ++ s := by
  induction t with
  | nil => simp at h
  | cons c t ih =>
    by_cases hc : p c = true
    · simp only [List.dropWhile_cons, hc] at h ⊢
      simpa [hc] using ih h
    · have hc' : p c = false := by simpa using hc
      simp [List.dropWhile_cons, hc']

/-- `dropWhile` keeps any non-satisfying element of its input. -/
theorem dropWhile_ne_nil_of_mem (p : Char → Bool) (t : Str) (c : Char)
    (hc : c ∈ t) (hpc : p c = false) : t.dropWhile p ≠ [] := by
  intro hnil
  have := List.dropWhile_eq_nil_iff.1 hnil c hc
  rw [hpc] at this
  exact Bool.false_ne_true this

/-- The rstrip of a list ending in whitespace drops that character. -/
theorem pyRstrip_concat_ws (x : Str) (c : Char) (hc : isPyWs c = true) :
    pyRstrip (x ++ [c]) = pyRstrip x := by
  induction x with
  | nil => simp [pyRstrip, hc]
  | cons d x ih => simp [pyRstrip, ih]

/-- `dropWhile` never lengthens a list. -/
theorem length_dropWhile_le (p : Char → Bool) (l : Str) :
    (l.dropWhile p).length ≤ l.length := by
  induction l with
  | nil => simp
  | cons c t ih =>
    rw [List.dropWhile_cons]
    by_cases hc : p c = true
    · simp only [hc, if_true]
      simp
      omega
    · have hc' : p c = false := by simpa using hc
      simp [hc']

/-- `pyRstrip` never lengthens a list. -/
theorem pyRstrip_length_le (l : Str) : (pyRstrip l).length ≤ l.length := by
  induction l with
  | nil => simp [pyRstrip]
  | cons d x ih =>
    simp only [pyRstrip]
    cases hx : pyRstrip x with
    | nil => by_cases hd : isPyWs d = true <;> simp [hd]
    | cons e y =>
      rw [hx] at ih
      simp at ih ⊢
      omega

/-- When the tail rstrips to something nonempty, rstrip keeps the head. -/
theorem pyRstrip_cons_ne_nil (d : Char) (t : Str) (h : pyRstrip t ≠ []) :
    pyRstrip (d :: t) = d :: pyRstrip t := by
  cases hx : pyRstrip t with
  | nil => exact absurd hx h
  | cons e y => simp [pyRstrip, hx]

/-- The rstrip of a list ending in non-whitespace is the list itself. -/
theorem pyRstrip_concat_nonws (x : Str) (c : Char) (hc : isPyWs c = false) :
    pyRstrip (x ++ [c]) = x ++ [c] := by
  induction x with
  | nil => simp [pyRstrip, hc]
  | cons d x ih =>
    have hne : pyRstrip (x ++ [c]) ≠ [] := by
      rw [ih]; simp
    rw [List.cons_append, pyRstrip_cons_ne_nil d _ hne, ih]

/-- A list with non-whitespace first and last characters is strip-invariant. -/
theorem pyStrip_eq_self (c : Char) (y : Str) (d : Char)
    (hc : isPyWs c = false) (hd : isPyWs d = false) :
    pyStrip (c :: y ++ [d]) = c :: y ++ [d] := by
  have h1 : List.dropWhile isPyWs (c :: (y ++ [d])) = c :: (y ++ [d]) := by
    rw [List.dropWhile_cons, hc]
    simp
  unfold pyStrip pyLstrip
  rw [List.cons_append, h1]
  have := pyRstrip_concat_nonws (c :: y) d hd
  simpa using this

/-- A strip-invariant nonempty list starts with non-whitespace. -/
theorem head_nonws_of_strip_self (c : Char) (t : Str)
    (h : pyStrip (c :: t) = c :: t) : isPyWs c = false := by
  by_contra hws
  rw [Bool.not_eq_false] at hws
  have heq : pyStrip (c :: t) = pyRstrip (pyLstrip t) := by
    unfold pyStrip pyLstrip
    rw [List.dropWhile_cons, hws]
    simp
  have hlen : (pyRstrip (pyLstrip t)).length ≤ t.length :=
    le_trans (pyRstrip_length_le _) (length_dropWhile_le _ _)
  rw [heq] at h
  have := congrArg List.length h
  simp at this
  omega

/-- `pyLstrip` of a list ending in `d` is empty or still ends in `d`. -/
theorem pyLstrip_concat_cases (y : Str) (d : Char) :
    pyLstrip (y ++ [d]) = [] ∨ ∃ w, pyLstrip (y ++ [d]) = w ++ [d] := by
  unfold pyLstrip
  induction y with
  | nil =>
    by_cases hd : isPyWs d = true
    · left; simp [List.dropWhile, hd]
    · right
      refine ⟨[], ?_⟩
      have hd' : isPyWs d = false := by simpa using hd
      simp [List.dropWhile, hd']
  | cons c y ih =>
    by_cases hc : isPyWs c = true
    · simpa [List.dropWhile_cons, hc] using ih
    · right
      refine ⟨c :: y, ?_⟩
      have hc' : isPyWs c = false := by simpa using hc
      simp [List.dropWhile_cons, hc']

/-- A strip-invariant list ending in `d` has non-whitespace `d`. -/
theorem last_nonws_of_strip_self (y : Str) (d : Char)
    (h : pyStrip (y ++ [d]) = y ++ [d]) : isPyWs d = false := by
  by_contra hws
  rw [Bool.not_eq_false] at hws
  have hlen : (pyStrip (y ++ [d])).length ≤ y.length := by
    unfold pyStrip
    rcases pyLstrip_concat_cases y d with hnil | ⟨w, hw⟩
    · rw [hnil]; simp [pyRstrip]
    · have hwlen : w.length ≤ y.length := by
        have := congrArg List.length hw
        have h3 : (pyLstrip (y ++ [d])).length ≤ (y ++ [d]).length :=
          length_dropWhile_le _ _
        simp at this h3 ⊢
        omega
      rw [hw, pyRstrip_concat_ws w d hws]
      exact le_trans (pyRstrip_length_le _) hwlen
  rw [h] at hlen
  simp at hlen

/-- Splitting a newline-free line gives that single line. -/
theorem splitNl_no_newline (l : Str) (h : '\n' ∉ l) : splitNl l = [l] := by
  induction l with
  | nil => rfl
  | cons c t ih =>
    have hc : c ≠ '\n' := fun hc => h (hc ▸ List.mem_cons_self _ _)
    have ht : '\n' ∉ t := fun hm => h (List.mem_cons_of_mem _ hm)
    simp [splitNl, hc, ih ht]

/-- Splitting past the first newline-free line. -/
theorem splitNl_line_append (l t : Str) (h : '\n' ∉ l) :
    splitNl (l ++ '\n' :: t) = l :: splitNl t := by
  induction l with
  | nil => simp [splitNl]
  | cons c l ih =>
    have hc : c ≠ '\n' := fun hc => h (hc ▸ List.mem_cons_self _ _)
    have hl : '\n' ∉ l := fun hm => h (List.mem_cons_of_mem _ hm)
    have h1 := ih hl
    simp only [List.cons_append, splitNl, if_neg hc, List.append_eq]
    rw [h1]

/-- `joinNl` on a nonempty list of lines. -/
theorem joinNl_cons (l : Str) (ls : List Str) (h : ls ≠ []) :
    joinNl (l :: ls) = l ++ '\n' :: joinNl ls := by
  cases ls with
  | nil => exact absurd rfl h
  | cons l' ls' => rfl

/-- `split` undoes `join` on newline-free lines. -/
theorem splitNl_joinNl (ls : List Str) (hne : ls ≠ [])
    (h : ∀ l ∈ ls, '\n' ∉ l) : splitNl (joinNl ls) = ls := by
  induction ls with
  | nil => exact absurd rfl hne
  | cons l ls ih =>
    cases ls with
    | nil =>
      simpa [joinNl] using splitNl_no_newline l (h l (List.mem_cons_self _ _))
    | cons l' ls' =>
      rw [joinNl_cons l _ (by simp),
        splitNl_line_append l _ (h l (List.mem_cons_self _ _)),
        ih (by simp) fun x hx => h x (List.mem_cons_of_mem _ hx)]

/-- `joinNl` over an appended final line. -/
theorem joinNl_append_single (B : List Str) (L : Str) (h : B ≠ []) :
    joinNl (B ++ [L]) = joinNl B ++ '\n' :: L := by
  induction B with
  | nil => exact absurd rfl h
  | cons b B ih =>
    cases B with
    | nil => rfl
    | cons b' B' =>
      rw [List.cons_append, joinNl_cons b _ (by simp),
        joinNl_cons b _ (by simp), ih (by simp)]
      simp

/-- The lazy group `(.+?)` stops exactly at its intended end when every
shorter nonempty split fails the continuation. -/
theorem lazySplit_exact {α : Type} (check : Str → Option α) (xs s : Str)
    (v : α) (hne : xs ≠ []) (hnl : '\n' ∉ xs) (hok : check s = some v)
    (hfail : ∀ t, t ≠ [] → t.length < xs.length → t.IsSuffix xs →
      check (t ++ s) = none) :
    lazySplit check (xs ++ s) = some (xs, v) := by
  induction xs with
  | nil => exact absurd rfl hne
  | cons c rest ih =>
    have hc : c ≠ '\n' := fun hc => hnl (hc ▸ List.mem_cons_self _ _)
    by_cases hrestn : rest = []
    · subst hrestn
      simp [lazySplit, hc, hok]
    · have hfirst : check (rest ++ s) = none := by
        refine hfail rest hrestn (by simp) ?_
        exact ⟨[c], rfl⟩
      have hrec : lazySplit check (rest ++ s) = some (rest, v) := by
        refine ih hrestn (fun hm => hnl (List.mem_cons_of_mem _ hm)) ?_
        intro t htne htlen htsuf
        refine hfail t htne (by simp; omega) ?_
        obtain ⟨w, hw⟩ := htsuf
        exact ⟨c :: w, by simp [hw]⟩
      simp [lazySplit, hc, hfirst, hrec]

/-- A digit character is not Python whitespace. -/
theorem isPyWs_false_of_isDigit (c : Char) (h : c.isDigit = true) :
    isPyWs c = false := by
  by_contra hws
  rw [Bool.not_eq_false] at hws
  unfold isPyWs at hws
  simp only [Bool.or_eq_true, decide_eq_true_eq] at hws
  rcases hws with ((((h' | h') | h') | h') | h') | h' <;> subst h' <;>
    exact absurd h (by decide)

/-- The timestamp parser reads back `format_timestamp`, whatever follows the
closing parenthesis. -/
theorem parseTsParen_format (ts : Nat) (rest : Str) :
    parseTsParen (format_timestamp ts ++ ')' :: rest) = some ts := by
  have hcolon : Char.isDigit ':' = false := by decide
  have hparen : Char.isDigit ')' = false := by decide
  unfold format_timestamp
  by_cases hh : ts / 3600 > 0
  · rw [if_pos hh]
    have e1 : (natDigits (ts / 3600) ++ ':' :: pad2 ((ts % 3600) / 60) ++
        ':' :: pad2 (ts % 60)) ++ ')' :: rest
        = natDigits (ts / 3600) ++ ':' :: (pad2 ((ts % 3600) / 60) ++
          ':' :: (pad2 (ts % 60) ++ ')' :: rest)) := by
      simp [List.append_assoc]
    rw [e1]
    unfold parseTsParen
    rw [takeWhile_block _ _ _ _ (natDigits_isDigit _) hcolon,
      dropWhile_block _ _ _ _ (natDigits_isDigit _) hcolon]
    rw [if_neg (natDigits_ne_nil _)]
    simp only
    rw [takeWhile_block _ _ _ _ (pad2_isDigit _) hcolon,
      dropWhile_block _ _ _ _ (pad2_isDigit _) hcolon]
    rw [if_neg (pad2_ne_nil _)]
    simp only
    rw [takeWhile_block _ _ _ _ (pad2_isDigit _) hparen,
      dropWhile_block _ _ _ _ (pad2_isDigit _) hparen]
    rw [if_neg (pad2_ne_nil _)]
    simp only [digitsToNat_natDigits, digitsToNat_pad2, Option.some.injEq]
    omega
  · rw [if_neg hh]
    have e1 : (natDigits ((ts % 3600) / 60) ++ ':' :: pad2 (ts % 60)) ++
        ')' :: rest
        = natDigits ((ts % 3600) / 60) ++ ':' :: (pad2 (ts % 60) ++
          ')' :: rest) := by
      simp [List.append_assoc]
    rw [e1]
    unfold parseTsParen
    rw [takeWhile_block _ _ _ _ (natDigits_isDigit _) hcolon,
      dropWhile_block _ _ _ _ (natDigits_isDigit _) hcolon]
    rw [if_neg (natDigits_ne_nil _)]
    simp only
    rw [takeWhile_block _ _ _ _ (pad2_isDigit _) hparen,
      dropWhile_block _ _ _ _ (pad2_isDigit _) hparen]
    rw [if_neg (pad2_ne_nil _)]
    simp only [digitsToNat_natDigits, digitsToNat_pad2, Option.some.injEq]
    omega

/-- Every character of a rendered timestamp is a digit or a colon. -/
theorem format_timestamp_chars (ts : Nat) :
    ∀ c ∈ format_timestamp ts, c.isDigit = true ∨ c = ':' := by
  intro c hc
  unfold format_timestamp at hc
  by_cases hh : ts / 3600 > 0 <;> simp only [hh, if_true, if_false] at hc
  · rcases List.mem_append.1 hc with h1 | h1
    · rcases List.mem_append.1 h1 with h2 | h2
      · exact Or.inl (natDigits_isDigit _ c h2)
      · rcases List.mem_cons.1 h2 with h3 | h3
        · exact Or.inr h3
        · exact Or.inl (pad2_isDigit _ c h3)
    · rcases List.mem_cons.1 h1 with h3 | h3
      · exact Or.inr h3
      · exact Or.inl (pad2_isDigit _ c h3)
  · rcases List.mem_append.1 hc with h1 | h1
    · exact Or.inl (natDigits_isDigit _ c h1)
    · rcases List.mem_cons.1 h1 with h3 | h3
      · exact Or.inr h3
      · exact Or.inl (pad2_isDigit _ c h3)

/-- The shared timestamp tail parses on the rendered suffix `" (H:MM:SS)"`. -/
theorem contTs_render (ts : Nat) :
    contTs (' ' :: '(' :: (format_timestamp ts ++ [')'])) = some ts := by
  unfold contTs
  rw [List.dropWhile_cons_of_pos (by decide),
    List.dropWhile_cons_of_neg (by decide)]
  simpa using parseTsParen_format ts []

/-- `contTs` fails whenever the character after the skipped whitespace is not
an opening parenthesis. -/
theorem contTs_none_of_head_ne (s : Str) (h0 : Char) (w : Str)
    (hdw : s.dropWhile isPyWs = h0 :: w) (h : h0 ≠ '(') : contTs s = none := by
  unfold contTs
  rw [hdw]
  split
  · rename_i s2 heq
    rw [List.cons.injEq] at heq
    exact absurd heq.1 h
  · rfl

/-- `contStar` fails whenever its input does not start with `*`. -/
theorem contStar_none_of_head_ne (c : Char) (r : Str) (h : c ≠ '*') :
    contStar (c :: r) = none := by
  unfold contStar
  split
  · rename_i s2 heq
    rw [List.cons.injEq] at heq
    exact absurd heq.1 h
  · rfl

/-- A nonempty suffix of a strip-invariant list survives `dropWhile` and its
first surviving character belongs to the original list. -/
theorem suffix_dropWhile_head (xs t : Str) (hxs : xs ≠ [])
    (hs : pyStrip xs = xs) (htne : t ≠ []) (htsuf : t.IsSuffix xs) :
    ∃ h0 w, t.dropWhile isPyWs = h0 :: w ∧ h0 ∈ xs := by
  have hdecomp := List.dropLast_append_getLast hxs
  have hlast_nonws : isPyWs (xs.getLast hxs) = false := by
    apply last_nonws_of_strip_self xs.dropLast (xs.getLast hxs)
    rw [hdecomp]
    exact hs
  obtain ⟨u, hu⟩ := htsuf
  have h1 : t.getLast? = xs.getLast? := by
    rw [← hu, List.getLast?_append_of_ne_nil u htne]
  have h2 : t.getLast? = some (xs.getLast hxs) := by
    rw [h1, List.getLast?_eq_getLast xs hxs]
  have h3 : xs.getLast hxs ∈ t := by
    obtain ⟨hne', heq⟩ := List.mem_getLast?_eq_getLast (l := t)
      (x := xs.getLast hxs) (by rw [Option.mem_def, h2])
    rw [heq]
    exact List.getLast_mem hne'
  have hne : t.dropWhile isPyWs ≠ [] :=
    dropWhile_ne_nil_of_mem _ t _ h3 hlast_nonws
  cases hdw : t.dropWhile isPyWs with
  | nil => exact absurd hdw hne
  | cons h0 w =>
    refine ⟨h0, w, rfl, ?_⟩
    have hh0t : h0 ∈ t :=
      (List.dropWhile_sublist _).subset (hdw ▸ List.mem_cons_self _ _)
    rw [← hu]
    exact List.mem_append_right u hh0t

/-- The lazy title group stops exactly at the end of a safe title. -/
theorem lazyTitle_exact (title : Str) (ts : Nat) (hT : title ≠ [])
    (hsT : pyStrip title = title) (hparen : '(' ∉ title)
    (hnlT : '\n' ∉ title) :
    lazySplit contTs (title ++ ' ' :: '(' :: (format_timestamp ts ++ [')']))
      = some (title, ts) := by
  apply lazySplit_exact contTs title _ ts hT hnlT (contTs_render ts)
  intro t htne htlen htsuf
  obtain ⟨h0, w, hdw, hh0⟩ := suffix_dropWhile_head title t hT hsT htne htsuf
  have hne : t.dropWhile isPyWs ≠ [] := by rw [hdw]; simp
  have hdwapp := dropWhile_append_ne_nil isPyWs t
    (' ' :: '(' :: (format_timestamp ts ++ [')'])) hne
  rw [hdw] at hdwapp
  exact contTs_none_of_head_ne _ _ _ (by rw [hdwapp]; rfl)
    fun he => hparen (he ▸ hh0)

/-- After a safe artist group, the continuation `\*\*\s*-\s*(.+?)\s*\(ts\)`
matches the rendered remainder and returns the title and timestamp. -/
theorem contStar_render (title : Str) (ts : Nat) (hT : title ≠ [])
    (hsT : pyStrip title = title) (hparen : '(' ∉ title)
    (hnlT : '\n' ∉ title) :
    contStar ('*' :: '*' :: ' ' :: '-' :: ' ' ::
        (title ++ ' ' :: '(' :: (format_timestamp ts ++ [')'])))
      = some (title, ts) := by
  have hred : contStar ('*' :: '*' :: ' ' :: '-' :: ' ' ::
      (title ++ ' ' :: '(' :: (format_timestamp ts ++ [')'])))
      = contDash (' ' :: '-' :: ' ' ::
        (title ++ ' ' :: '(' :: (format_timestamp ts ++ [')']))) := rfl
  rw [hred]
  unfold contDash
  rw [List.dropWhile_cons_of_pos (by decide),
    List.dropWhile_cons_of_neg (by decide)]
  simp only
  rw [List.dropWhile_cons_of_pos (by decide)]
  have hhead : isPyWs (title.head hT) = false := by
    apply head_nonws_of_strip_self (title.head hT) title.tail
    rw [List.head_cons_tail title hT]
    exact hsT
  have e1 : title ++ ' ' :: '(' :: (format_timestamp ts ++ [')'])
      = title.head hT :: (title.tail ++ ' ' :: '(' ::
          (format_timestamp ts ++ [')'])) := by
    conv_lhs => rw [← List.head_cons_tail title hT]
    rw [List.cons_append]
  rw [e1, List.dropWhile_cons_of_neg (by simp [hhead]), ← e1]
  exact lazyTitle_exact title ts hT hsT hparen hnlT

/-- The lazy artist group stops exactly at the end of a safe artist. -/
theorem lazyArtist_exact (artist title : Str) (ts : Nat)
    (hA : artist ≠ []) (hstar : '*' ∉ artist) (hnlA : '\n' ∉ artist)
    (hT : title ≠ []) (hsT : pyStrip title = title) (hparen : '(' ∉ title)
    (hnlT : '\n' ∉ title) :
    lazySplit contStar (artist ++ '*' :: '*' :: ' ' :: '-' :: ' ' ::
        (title ++ ' ' :: '(' :: (format_timestamp ts ++ [')'])))
      = some (artist, title, ts) := by
  apply lazySplit_exact contStar artist _ (title, ts) hA hnlA
    (contStar_render title ts hT hsT hparen hnlT)
  intro t htne htlen htsuf
  obtain ⟨u, hu⟩ := htsuf
  obtain ⟨t0, t', rfl⟩ := List.exists_cons_of_ne_nil htne
  have ht0mem : t0 ∈ artist := by
    rw [← hu]
    exact List.mem_append_right u (List.mem_cons_self _ _)
  rw [List.cons_append]
  exact contStar_none_of_head_ne t0 _ fun he => hstar (he ▸ ht0mem)

/-- The rendered matched line, reassociated for parsing. -/
theorem renderTrackLine_matched_shape (n : Nat) (t : Track)
    (h : t.is_unidentified = false) :
    renderTrackLine n t
      = natDigits n ++ '.' :: ' ' :: '*' :: '*' ::
          (t.artist ++ '*' :: '*' :: ' ' :: '-' :: ' ' ::
            (t.title ++ ' ' :: '(' ::
              (format_timestamp t.timestamp ++ [')']))) := by
  unfold renderTrackLine
  rw [if_neg (by simp [h])]
  simp only [show str ". **" = ['.', ' ', '*', '*'] from rfl,
    show str "** - " = ['*', '*', ' ', '-', ' '] from rfl,
    show str " (" = [' ', '('] from rfl,
    show str ")" = [')'] from rfl,
    List.append_assoc, List.cons_append, List.nil_append]

/-- The rendered unidentified line, reassociated for parsing. -/
theorem renderTrackLine_unid_shape (n : Nat) (t : Track)
    (h : t.is_unidentified = true) :
    renderTrackLine n t
      = natDigits n ++ '.' :: ' ' ::
          (str "*Unidentified*" ++ ' ' :: '(' ::
            (format_timestamp t.timestamp ++ [')'])) := by
  unfold renderTrackLine
  rw [if_pos (by simp [h])]
  simp only [show str ". *Unidentified* (" =
      '.' :: ' ' :: (str "*Unidentified*" ++ [' ', '(']) from rfl,
    show str ")" = [')'] from rfl,
    List.append_assoc, List.cons_append, List.nil_append]

/-- Parsing a rendered matched line with safe artist and title returns their
raw groups and the timestamp. -/
theorem parseTrackCore_render_matched (n : Nat) (t : Track)
    (hA : t.artist ≠ []) (hsA : pyStrip t.artist = t.artist)
    (hstar : '*' ∉ t.artist) (hnlA : '\n' ∉ t.artist)
    (hT : t.title ≠ []) (hsT : pyStrip t.title = t.title)
    (hparen : '(' ∉ t.title) (hnlT : '\n' ∉ t.title) :
    parseTrackCore (renderTrackLine n t)
      = some (t.artist, t.title, t.timestamp) := by
  have hmatched : t.is_unidentified = false := by
    unfold Track.is_unidentified
    simp [List.isEmpty_iff, hA]
  rw [renderTrackLine_matched_shape n t hmatched]
  unfold parseTrackCore
  rw [takeWhile_block _ _ _ _ (natDigits_isDigit n) (by decide),
    dropWhile_block _ _ _ _ (natDigits_isDigit n) (by decide)]
  rw [if_neg (natDigits_ne_nil n)]
  simp only
  rw [List.takeWhile_cons_of_pos (by decide),
    List.takeWhile_cons_of_neg (by decide),
    List.dropWhile_cons_of_pos (by decide),
    List.dropWhile_cons_of_neg (by decide)]
  rw [if_neg (by simp)]
  simp only
  rw [lazyArtist_exact t.artist t.title t.timestamp hA hstar hnlA hT hsT
    hparen hnlT]

/-- Parsing a rendered unidentified line returns empty groups and the
timestamp. -/
theorem parseTrackCore_render_unid (n : Nat) (t : Track)
    (h : t.is_unidentified = true) :
    parseTrackCore (renderTrackLine n t) = some ([], [], t.timestamp) := by
  rw [renderTrackLine_unid_shape n t h]
  unfold parseTrackCore
  rw [takeWhile_block _ _ _ _ (natDigits_isDigit n) (by decide),
    dropWhile_block _ _ _ _ (natDigits_isDigit n) (by decide)]
  rw [if_neg (natDigits_ne_nil n)]
  simp only
  rw [List.takeWhile_cons_of_pos (by decide)]
  rw [show str "*Unidentified*" ++ ' ' :: '(' ::
      (format_timestamp t.timestamp ++ [')'])
      = '*' :: 'U' :: (str "nidentified*" ++ ' ' :: '(' ::
        (format_timestamp t.timestamp ++ [')'])) from rfl]
  rw [List.takeWhile_cons_of_neg (by decide),
    List.dropWhile_cons_of_pos (by decide),
    List.dropWhile_cons_of_neg (by decide)]
  rw [if_neg (by simp)]
  show (matchIdent ('*' :: 'U' :: (str "nidentified*" ++ ' ' :: '(' ::
      (format_timestamp t.timestamp ++ [')'])))).map
        (fun ts => (([] : Str), ([] : Str), ts))
    = some ([], [], t.timestamp)
  unfold matchIdent
  rw [show ('*' :: 'U' :: (str "nidentified*" ++ ' ' :: '(' ::
      (format_timestamp t.timestamp ++ [')'])))
      = str "*Unidentified*" ++ (' ' :: '(' ::
        (format_timestamp t.timestamp ++ [')'])) from rfl]
  have hpref : (str "*Unidentified*").isPrefixOf
      (str "*Unidentified*" ++ (' ' :: '(' ::
        (format_timestamp t.timestamp ++ [')']))) = true := by
    rw [List.isPrefixOf_iff_prefix]
    exact List.prefix_append _ _
  rw [if_pos hpref]
  rw [show (14 : Nat) = (str "*Unidentified*").length from rfl,
    List.drop_left]
  rw [contTs_render]
  rfl

/-- Newlines never occur in a rendered timestamp. -/
theorem no_newline_format_timestamp (ts : Nat) : '\n' ∉ format_timestamp ts := by
  intro h
  rcases format_timestamp_chars ts '\n' h with hd | hc
  · exact absurd hd (by decide)
  · exact absurd hc (by decide)

/-- Newlines never occur in a decimal rendering. -/
theorem no_newline_natDigits (n : Nat) : '\n' ∉ natDigits n := by
  intro h
  exact absurd (natDigits_isDigit n '\n' h) (by decide)

/-- A rendered track line contains no newline when artist and title are
newline-free. -/
theorem renderTrackLine_no_newline (n : Nat) (t : Track)
    (ha : '\n' ∉ t.artist) (ht : '\n' ∉ t.title) :
    '\n' ∉ renderTrackLine n t := by
  by_cases hu : t.is_unidentified = true
  · rw [renderTrackLine_unid_shape n t hu]
    intro hmem
    simp only [List.mem_append, List.mem_cons] at hmem
    rcases hmem with hd | h1 | h2 | hrest
    · exact no_newline_natDigits n hd
    · exact absurd h1 (by decide)
    · exact absurd h2 (by decide)
    · rcases hrest with hu' | h3 | h4 | hrest2
      · exact absurd hu' (by decide)
      · exact absurd h3 (by decide)
      · exact absurd h4 (by decide)
      · rcases hrest2 with hf | hp | hemp
        · exact no_newline_format_timestamp _ hf
        · exact absurd hp (by decide)
        · simp at hemp
  · have hu' : t.is_unidentified = false := by simpa using hu
    rw [renderTrackLine_matched_shape n t hu']
    intro hmem
    simp only [List.mem_append, List.mem_cons] at hmem
    rcases hmem with hd | h1 | h2 | h3 | h4 | hrest
    · exact no_newline_natDigits n hd
    · exact absurd h1 (by decide)
    · exact absurd h2 (by decide)
    · exact absurd h3 (by decide)
    · exact absurd h4 (by decide)
    · rcases hrest with hA | c1 | c2 | c3 | c4 | c5 | hrest2
      · exact ha hA
      · exact absurd c1 (by decide)
      · exact absurd c2 (by decide)
      · exact absurd c3 (by decide)
      · exact absurd c4 (by decide)
      · exact absurd c5 (by decide)
      · rcases hrest2 with hT | c6 | c7 | hrest3
        · exact ht hT
        · exact absurd c6 (by decide)
        · exact absurd c7 (by decide)
        · rcases hrest3 with hf | hp | hemp
          · exact no_newline_format_timestamp _ hf
          · exact absurd hp (by decide)
          · simp at hemp

/-- A rendered track line starts with a digit and ends with `)`. -/
theorem renderTrackLine_decomp (n : Nat) (t : Track) :
    ∃ c y, renderTrackLine n t = c :: y ++ [')'] ∧ c.isDigit = true := by
  obtain ⟨c, nd', hnd⟩ := List.exists_cons_of_ne_nil (natDigits_ne_nil n)
  have hc : c.isDigit = true := natDigits_isDigit n c (hnd ▸ List.mem_cons_self _ _)
  by_cases hu : t.is_unidentified = true
  · refine ⟨c, nd' ++ '.' :: ' ' ::
      (str "*Unidentified*" ++ ' ' :: '(' :: format_timestamp t.timestamp),
      ?_, hc⟩
    rw [renderTrackLine_unid_shape n t hu, hnd]
    simp [List.append_assoc]
  · have hu' : t.is_unidentified = false := by simpa using hu
    refine ⟨c, nd' ++ '.' :: ' ' :: '*' :: '*' ::
      (t.artist ++ '*' :: '*' :: ' ' :: '-' :: ' ' ::
        (t.title ++ ' ' :: '(' :: format_timestamp t.timestamp)),
      ?_, hc⟩
    rw [renderTrackLine_matched_shape n t hu', hnd]
    simp [List.append_assoc]

/-- A rendered track line is strip-invariant. -/
theorem pyStrip_renderTrackLine (n : Nat) (t : Track) :
    pyStrip (renderTrackLine n t) = renderTrackLine n t := by
  obtain ⟨c, y, hy, hc⟩ := renderTrackLine_decomp n t
  rw [hy]
  exact pyStrip_eq_self c y ')' (isPyWs_false_of_isDigit c hc) (by decide)

/-- Parsing any stripped line that does not start with a digit fails. -/
theorem parseTrackCore_pyStrip_nondigit (c : Char) (t : Str)
    (hws : isPyWs c = false) (hd : c.isDigit = false) :
    parseTrackCore (pyStrip (c :: t)) = none := by
  have hl : pyLstrip (c :: t) = c :: t := by
    unfold pyLstrip
    rw [List.dropWhile_cons_of_neg (by simp [hws])]
  have hshape : ∃ z, pyStrip (c :: t) = c :: z := by
    unfold pyStrip
    rw [hl]
    cases hr : pyRstrip t with
    | nil => exact ⟨[], by simp [pyRstrip, hr, hws]⟩
    | cons e y => exact ⟨e :: y, by simp [pyRstrip, hr]⟩
  obtain ⟨z, hz⟩ := hshape
  rw [hz]
  unfold parseTrackCore
  rw [List.takeWhile_cons_of_neg (by simp [hd])]
  simp

/-- Parsing the empty line fails. -/
theorem parseTrackCore_nil : parseTrackCore (pyStrip []) = none := rfl

/-- Safety conditions under which a track's markdown line parses back to the
same `(artist, title, timestamp)` triple: either the unidentified sentinel,
or nonempty stripped fields where the artist contains no `*` (which would
derail the lazy artist group) and the title contains no `(` (which could let
the lazy title group stop at an embedded parenthesis). -/
def mdSafe (t : Track) : Prop :=
  (t.artist = [] ∧ t.title = []) ∨
  (t.artist ≠ [] ∧ t.title ≠ [] ∧ pyStrip t.artist = t.artist ∧
   pyStrip t.title = t.title ∧ '*' ∉ t.artist ∧ '\n' ∉ t.artist ∧
   '(' ∉ t.title ∧ '\n' ∉ t.title)

instance (t : Track) : Decidable (mdSafe t) := by
  unfold mdSafe; infer_instance

/-- Every line of `trackLines` renders some non-rejected track. -/
theorem trackLines_mem (tracks : List Track) (n : Nat) :
    ∀ l ∈ trackLines tracks n, ∃ m t, t ∈ tracks ∧ t.rejected = false ∧
      l = renderTrackLine m t := by
  induction tracks generalizing n with
  | nil => intro l hl; simp [trackLines] at hl
  | cons t ts ih =>
    intro l hl
    by_cases hr : t.rejected = true
    · rw [trackLines, if_pos hr] at hl
      obtain ⟨m, t', ht', hr', hl'⟩ := ih n l hl
      exact ⟨m, t', List.mem_cons_of_mem _ ht', hr', hl'⟩
    · have hr' : t.rejected = false := by simpa using hr
      rw [trackLines, if_neg (by simp [hr'])] at hl
      rcases List.mem_cons.1 hl with hl | hl
      · exact ⟨n, t, List.mem_cons_self _ _, hr', hl⟩
      · obtain ⟨m, t', ht', hrr, hl'⟩ := ih (n + 1) l hl
        exact ⟨m, t', List.mem_cons_of_mem _ ht', hrr, hl'⟩

/-- Under the safety conditions every rendered track line is newline-free. -/
theorem trackLines_no_newline (tracks : List Track) (n : Nat)
    (hsafe : ∀ t ∈ tracks, t.rejected = false → mdSafe t) :
    ∀ l ∈ trackLines tracks n, '\n' ∉ l := by
  intro l hl
  obtain ⟨m, t, ht, hr, rfl⟩ := trackLines_mem tracks n l hl
  rcases hsafe t ht hr with ⟨ha, hti⟩ | ⟨-, -, -, -, -, hna, -, hnt⟩
  · exact renderTrackLine_no_newline m t (by simp [ha]) (by simp [hti])
  · exact renderTrackLine_no_newline m t hna hnt

/-- If `trackLines` is empty, every track is rejected. -/
theorem trackLines_nil_filter (tracks : List Track) (n : Nat)
    (h : trackLines tracks n = []) :
    tracks.filter (fun t => !t.rejected) = [] := by
  induction tracks generalizing n with
  | nil => rfl
  | cons t ts ih =>
    by_cases hr : t.rejected = true
    · rw [trackLines, if_pos hr] at h
      simp only [List.filter_cons, hr]
      simpa using ih n h
    · rw [trackLines, if_neg hr] at h
      cases h

/-- Parsing the rendered track lines yields exactly the non-rejected tracks'
triples. -/
theorem filterMap_trackLines (tracks : List Track) (n : Nat)
    (hsafe : ∀ t ∈ tracks, t.rejected = false → mdSafe t) :
    ((trackLines tracks n).filterMap fun l =>
        (parseTrackCore (pyStrip l)).map track_of_groups).map
        (fun tr => (tr.artist, tr.title, tr.timestamp))
      = (tracks.filter fun t => !t.rejected).map
          fun t => (t.artist, t.title, t.timestamp) := by
  induction tracks generalizing n with
  | nil => rfl
  | cons t ts ih =>
    have hsafe' : ∀ t' ∈ ts, t'.rejected = false → mdSafe t' :=
      fun t' ht' => hsafe t' (List.mem_cons_of_mem _ ht')
    by_cases hr : t.rejected = true
    · rw [trackLines, if_pos hr]
      simp only [List.filter_cons, hr]
      simpa using ih n hsafe'
    · have hr' : t.rejected = false := by simpa using hr
      rw [trackLines, if_neg (by simp [hr'])]
      rw [List.filterMap_cons, pyStrip_renderTrackLine n t]
      rcases hsafe t (List.mem_cons_self _ _) hr' with ⟨ha, hti⟩ |
        ⟨hA, hT, hsA, hsT, hstar, hnlA, hparen, hnlT⟩
      · have hu : t.is_unidentified = true := by
          unfold Track.is_unidentified
          simp [ha, hti]
        rw [parseTrackCore_render_unid n t hu]
        simp only [Option.map_some', List.filter_cons, hr', Bool.not_false,
          if_true, List.map_cons]
        rw [ih (n + 1) hsafe']
        simp [track_of_groups, ha, hti, pyStrip, pyLstrip, pyRstrip]
      · rw [parseTrackCore_render_matched n t hA hsA hstar hnlA hT hsT
          hparen hnlT]
        simp only [Option.map_some', List.filter_cons, hr', Bool.not_false,
          if_true, List.map_cons]
        rw [ih (n + 1) hsafe']
        simp [track_of_groups, hsA, hsT]

/-- Every parsed track is born non-rejected. -/
theorem track_of_groups_rejected (g : Str × Str × Nat) :
    (track_of_groups g).rejected = false := rfl

/-- C6, amended: for every tracklist whose non-rejected tracks satisfy the
`mdSafe` conditions (unidentified sentinel, or nonempty stripped artist/title
with no `*` in the artist and no `(` or newline in either), and whose source
file name and generation date are newline-free, parsing the rendered markdown
reproduces exactly the ordered `(artist, title, timestamp)` triples of the
non-rejected tracks — for both the with-hours and without-hours timestamp
formats, which `format_timestamp` selects by value. -/
theorem c6_markdown_round_trip (tl : Tracklist) (now : Str)
    (hsrc : '\n' ∉ tl.source_file)
    (hgen : '\n' ∉ tl.generated_on.getD now)
    (hsafe : ∀ t ∈ tl.tracks, t.rejected = false → mdSafe t) :
    triples (parse_markdown_tracklist (tl.to_markdown now)) = triples tl := by
  have hdrq : str "# Tracklist: " ++ tl.source_file
      = '#' :: (str " Tracklist: " ++ tl.source_file) := rfl
  have dateq : str "*Generated on " ++ tl.generated_on.getD now ++ str "*"
      = '*' :: (str "Generated on " ++ tl.generated_on.getD now ++ str "*") := rfl
  have hhdr_nl : '\n' ∉ str "# Tracklist: " ++ tl.source_file := by
    intro h
    rcases List.mem_append.1 h with h | h
    · exact absurd h (by decide)
    · exact hsrc h
  have hdate_nl : '\n' ∉ str "*Generated on " ++ tl.generated_on.getD now
      ++ str "*" := by
    intro h
    rcases List.mem_append.1 h with h | h
    · rcases List.mem_append.1 h with h | h
      · exact absurd h (by decide)
      · exact hgen h
    · exact absurd h (by decide)
  have hhdr_none : parseTrackCore
      (pyStrip (str "# Tracklist: " ++ tl.source_file)) = none := by
    rw [hdrq]
    exact parseTrackCore_pyStrip_nondigit '#' _ (by decide) (by decide)
  have hdate_none : parseTrackCore (pyStrip (str "*Generated on "
      ++ tl.generated_on.getD now ++ str "*")) = none := by
    rw [dateq]
    exact parseTrackCore_pyStrip_nondigit '*' _ (by decide) (by decide)
  have hshape : tl.to_markdown now
      = (str "# Tracklist: " ++ tl.source_file) ++
          ('\n' :: joinNl (([[],
            str "*Generated on " ++ tl.generated_on.getD now ++ str "*", []]
            ++ trackLines tl.tracks 1) ++ [[]])) := by
    show joinNl (((str "# Tracklist: " ++ tl.source_file) ::
        ([[], str "*Generated on " ++ tl.generated_on.getD now ++ str "*", []]
          ++ trackLines tl.tracks 1)) ++ [[]]) = _
    rw [List.cons_append, joinNl_cons _ _ (by simp)]
  have hlcontent : pyLstrip (tl.to_markdown now) = tl.to_markdown now := by
    rw [hshape, hdrq]
    unfold pyLstrip
    rw [List.cons_append, List.dropWhile_cons_of_neg (by decide)]
  have hjoin1 : tl.to_markdown now
      = joinNl ([str "# Tracklist: " ++ tl.source_file, [],
          str "*Generated on " ++ tl.generated_on.getD now ++ str "*", []]
          ++ trackLines tl.tracks 1) ++ ['\n'] := by
    show joinNl (([str "# Tracklist: " ++ tl.source_file, [],
        str "*Generated on " ++ tl.generated_on.getD now ++ str "*", []]
        ++ trackLines tl.tracks 1) ++ [[]]) = _
    rw [joinNl_append_single _ _ (by simp)]
  have hstrip0 : pyStrip (tl.to_markdown now)
      = pyRstrip (joinNl ([str "# Tracklist: " ++ tl.source_file, [],
          str "*Generated on " ++ tl.generated_on.getD now ++ str "*", []]
          ++ trackLines tl.tracks 1)) := by
    unfold pyStrip
    rw [hlcontent, hjoin1, pyRstrip_concat_ws _ '\n' (by decide)]
  by_cases hT : trackLines tl.tracks 1 = []
  · have hstrip : pyStrip (tl.to_markdown now)
        = joinNl [str "# Tracklist: " ++ tl.source_file, [],
            str "*Generated on " ++ tl.generated_on.getD now ++ str "*"] := by
      rw [hstrip0, hT]
      have h1 : joinNl ([str "# Tracklist: " ++ tl.source_file, [],
          str "*Generated on " ++ tl.generated_on.getD now ++ str "*", []]
          ++ [])
          = joinNl [str "# Tracklist: " ++ tl.source_file, [],
              str "*Generated on " ++ tl.generated_on.getD now ++ str "*"]
            ++ ['\n'] := by
        show joinNl ([str "# Tracklist: " ++ tl.source_file, [],
            str "*Generated on " ++ tl.generated_on.getD now ++ str "*"]
            ++ [[]]) = _
        rw [joinNl_append_single _ _ (by simp)]
      rw [h1, pyRstrip_concat_ws _ '\n' (by decide)]
      have h2 : joinNl [str "# Tracklist: " ++ tl.source_file, [],
          str "*Generated on " ++ tl.generated_on.getD now ++ str "*"]
          = ((str "# Tracklist: " ++ tl.source_file) ++
              ('\n' :: '\n' :: (str "*Generated on "
                ++ tl.generated_on.getD now))) ++ ['*'] := by
        show (str "# Tracklist: " ++ tl.source_file) ++
            ('\n' :: ([] ++ '\n' :: (str "*Generated on "
              ++ tl.generated_on.getD now ++ str "*"))) = _
        simp [List.append_assoc, show str "*" = ['*'] from rfl]
      rw [h2, pyRstrip_concat_nonws _ '*' (by decide), ← h2]
    unfold parse_markdown_tracklist triples
    rw [hstrip, splitNl_joinNl _ (by simp) ?hnl]
    case hnl =>
      intro l hl
      simp only [List.mem_cons, List.not_mem_nil, or_false] at hl
      rcases hl with rfl | rfl | rfl
      · exact hhdr_nl
      · simp
      · exact hdate_nl
    simp only [List.filterMap_cons, hhdr_none, hdate_none,
      parseTrackCore_nil, List.filterMap_nil]
    have hfilter := trackLines_nil_filter tl.tracks 1 hT
    simp [hfilter]
  · obtain ⟨c0, y0, hL, hc0⟩ : ∃ c y,
        (trackLines tl.tracks 1).getLast hT = c :: y ++ [')'] ∧
          c.isDigit = true := by
      obtain ⟨m, t, -, -, hL⟩ := trackLines_mem tl.tracks 1 _
        (List.getLast_mem hT)
      obtain ⟨c, y, hy, hc⟩ := renderTrackLine_decomp m t
      exact ⟨c, y, by rw [hL, hy], hc⟩
    have hstrip : pyStrip (tl.to_markdown now)
        = joinNl ([str "# Tracklist: " ++ tl.source_file, [],
            str "*Generated on " ++ tl.generated_on.getD now ++ str "*", []]
            ++ trackLines tl.tracks 1) := by
      rw [hstrip0]
      have hB : ([str "# Tracklist: " ++ tl.source_file, [],
          str "*Generated on " ++ tl.generated_on.getD now ++ str "*", []]
          ++ trackLines tl.tracks 1)
          = ([str "# Tracklist: " ++ tl.source_file, [],
             str "*Generated on " ++ tl.generated_on.getD now ++ str "*", []]
            ++ (trackLines tl.tracks 1).dropLast)
            ++ [(trackLines tl.tracks 1).getLast hT] := by
        have h0 := congrArg
          (fun z => [str "# Tracklist: " ++ tl.source_file, [],
            str "*Generated on " ++ tl.generated_on.getD now ++ str "*", []]
            ++ z)
          (List.dropLast_append_getLast hT)
        simp only at h0
        rw [← h0]
        exact (List.append_assoc _ _ _).symm
      have h3 : joinNl ([str "# Tracklist: " ++ tl.source_file, [],
          str "*Generated on " ++ tl.generated_on.getD now ++ str "*", []]
          ++ trackLines tl.tracks 1)
          = (joinNl ([str "# Tracklist: " ++ tl.source_file, [],
              str "*Generated on " ++ tl.generated_on.getD now ++ str "*", []]
              ++ (trackLines tl.tracks 1).dropLast)
              ++ '\n' :: c0 :: y0) ++ [')'] := by
        rw [hB, joinNl_append_single _ _ (by simp), hL]
        simp [List.append_assoc]
      rw [h3, pyRstrip_concat_nonws _ ')' (by decide), ← h3]
    unfold parse_markdown_tracklist triples
    rw [hstrip, splitNl_joinNl _ (by simp) ?hnl2]
    case hnl2 =>
      intro l hl
      rcases List.mem_append.1 hl with hfix | htr
      · simp only [List.mem_cons, List.not_mem_nil, or_false] at hfix
        rcases hfix with rfl | rfl | rfl | rfl
        · exact hhdr_nl
        · simp
        · exact hdate_nl
        · simp
      · exact trackLines_no_newline tl.tracks 1 hsafe l htr
    simp only [List.filterMap_append, List.filterMap_cons, hhdr_none,
      hdate_none, parseTrackCore_nil, List.filterMap_nil, List.nil_append]
    rw [List.filter_eq_self.mpr ?hnr]
    case hnr =>
      intro tr htr
      obtain ⟨l, -, hmap⟩ := List.mem_filterMap.1 htr
      obtain ⟨g, -, rfl⟩ := Option.map_eq_some'.1 hmap
      simp [track_of_groups_rejected]
    exact filterMap_trackLines tl.tracks 1 hsafe

/-- A tracklist with a matched track whose artist is empty but whose title is
not: the sentinel test `not artist and not title` fails, so `to_markdown`
renders the matched line `1. **** - X (0:00)`. -/
def c6bad : Tracklist :=
  { source_file := str "m.mp3",
    generated_on := some (str "d"),
    tracks := [{ timestamp := 0, artist := [], title := str "X" }] }

/-- C6, counterexample: rendering a track with empty artist and nonempty
title produces the line `1. **** - X (0:00)`, which the parser regex drops
(the lazy artist group must be nonempty), so parsing the markdown loses the
track and the round trip fails. -/
theorem c6_counterexample :
    triples (parse_markdown_tracklist (c6bad.to_markdown (str "now"))) = []
      ∧ triples c6bad = [([], str "X", 0)] := by
  constructor <;> decide

/-- A tracklist exercising both timestamp formats (0:00 and 1:30:45), an
unidentified track and a rejected track, with regex-safe artist/title text. -/
def c6tl : Tracklist :=
  { source_file := str "mix.mp3",
    generated_on := some (str "2026-01-31 20:00"),
    tracks :=
      [{ timestamp := 0, artist := str "Daft Punk",
         title := str "Around the World" },
       { timestamp := 90, artist := str "Bad *", title := str "(x",
         rejected := true },
       { timestamp := 360, artist := [], title := [] },
       { timestamp := 5445, artist := str "Fatboy Slim",
         title := str "Praise You" }] }

/-- C6, witness: the hypotheses of the round-trip theorem hold of `c6tl`,
whose conclusion then recovers its three non-rejected tracks. -/
theorem c6_witness :
    ('\n' ∉ c6tl.source_file) ∧
    ('\n' ∉ c6tl.generated_on.getD (str "now")) ∧
    (c6tl.tracks.all fun t => t.rejected || decide (mdSafe t)) = true ∧
    triples (parse_markdown_tracklist (c6tl.to_markdown (str "now")))
      = triples c6tl :=
  ⟨by decide, by decide, by decide,
   c6_markdown_round_trip c6tl (str "now") (by decide) (by decide)
     (by decide)⟩
